import Mathlib

/-!
# Verification of the codaio-exporter concurrency core and table pipeline

Shallow embedding of `codaio_exporter` (Python) into Lean 4:

* `Gather`      embeds `utils/gather.py`
* `Retry`       embeds `utils/retry.py`
* `RateLimit`   embeds `utils/ratelimit.py` composed with `utils/retry.py` and
                `utils/concurrencylimit.py` the way `api/client.py` stacks them,
                as a small-step transition system over cooperative tasks
* `ColumnAPI`   embeds `api/column.py` (with `api/parse.py`)
* `TableParse`  embeds `table.py` (`parse_table_from_api`)
* `Reimport`    embeds `reimport.py` (`_insert_rows`)

Machine integers do not occur; Python ints are modelled as `Nat`/`Int`.
Exceptions are modelled with `Except`.
-/

namespace Gather

/-- Classify one terminal task outcome the way
`gather_raise_first_error_after_all_tasks_complete` does with
`isinstance(result, Exception)`: keep the payloads of failed tasks. -/
def errorsOf {E T : Type} (results : List (Except E T)) : List E :=
  results.filterMap fun r =>
    match r with
    | .error e => some e
    | .ok _ => none

/-- The successful payloads, in submission order. -/
def valuesOf {E T : Type} (results : List (Except E T)) : List T :=
  results.filterMap fun r =>
    match r with
    | .ok v => some v
    | .error _ => none

/-- Embedding of `gather_raise_first_error_after_all_tasks_complete`
(`utils/gather.py` lines 19-28).  The input list holds the terminal outcome of
every launched task, indexed by submission order (this is what
`asyncio.gather(..., return_exceptions=True)` hands back).  The first component
of the output is the list of failures passed to `logging.error`, the second is
the returned value or the raised error (`raise errors[0]`). -/
def gather_raise_first_error_after_all_tasks_complete {E T : Type}
    (results : List (Except E T)) : List E × Except E (List T) :=
  let errors := errorsOf results
  match errors with
  | [] => (errors, .ok (valuesOf results))
  | e :: _ => (errors, .error e)

end Gather

namespace Retry

/-- Embedding of the loop body of `retry` (`utils/retry.py` lines 16-29).
`f i` is the outcome of the `i`-th invocation of the wrapped operation
(0-indexed); `k` is the index of the invocation about to run and the second
argument is `remaining_retries`.  Returns the final outcome, the total number
of invocations performed from this point on, and the list of sleep durations
(`asyncio.sleep(1)`) performed between consecutive invocations. -/
def retryAux {E A : Type} (f : Nat → Except E A) : Nat → Nat → Except E A × Nat × List Nat
  | k, 0 => (f k, 1, [])
  | k, remaining + 1 =>
    match f k with
    | .ok v => (.ok v, 1, [])
    | .error _ =>
      let rest := retryAux f (k + 1) remaining
      (rest.1, rest.2.1 + 1, 1 :: rest.2.2)

/-- Embedding of `retry(max_num_retries)` applied to an operation `f`:
start at invocation 0 with `remaining_retries = max_num_retries`. -/
def retry {E A : Type} (max_num_retries : Nat) (f : Nat → Except E A) :
    Except E A × Nat × List Nat :=
  retryAux f 0 max_num_retries

end Retry

namespace Parse

/-- A Python value as it appears in a decoded JSON dict (`Dict[str, Any]`).
`obj` stands for any value of a type other than the ones the parsers accept. -/
inductive PyVal where
  | str : String → PyVal
  | bool : Bool → PyVal
  | int : Int → PyVal
  | obj : Nat → PyVal
deriving DecidableEq, Repr

/-- Embedding of `parse_str` (`api/parse.py` lines 10-14): accept a `str`,
raise on anything else. -/
def parse_str (v : PyVal) : Except String String :=
  match v with
  | .str s => .ok s
  | _ => .error "Tried to read value as str"

/-- Embedding of `parse_int` (`api/parse.py` lines 4-8). -/
def parse_int (v : PyVal) : Except String Int :=
  match v with
  | .int n => .ok n
  | _ => .error "Tried to read value as int"

/-- Modelled from the spec: `parse_bool` is imported by `api/column.py` and
`api/client.py` from `api/parse.py`, but its definition is absent from the
provided `api/parse.py`; it is modelled after the `parse_str`/`parse_int`
pattern used there (type check, raise otherwise). -/
def parse_bool (v : PyVal) : Except String Bool :=
  match v with
  | .bool b => .ok b
  | _ => .error "Tried to read value as bool"

end Parse

namespace ColumnAPI

open Parse

/-- The raw column data dict held by `ColumnAPI` (`api/column.py`), modelled
as an association list from keys to Python values. -/
abbrev ColumnData := List (String × PyVal)

/-- Embedding of `ColumnAPI.id` (`api/column.py` lines 11-12): indexing a dict
raises `KeyError` on an absent key. -/
def id (data : ColumnData) : Except String String :=
  match data.lookup "id" with
  | some v => parse_str v
  | none => .error "KeyError: id"

/-- Embedding of `ColumnAPI.name` (`api/column.py` lines 17-18). -/
def name (data : ColumnData) : Except String String :=
  match data.lookup "name" with
  | some v => parse_str v
  | none => .error "KeyError: name"

/-- Embedding of `ColumnAPI.calculated` (`api/column.py` lines 20-21):
`"calculated" in self._data and parse_bool(self._data["calculated"])`; short
circuits to `False` when the key is absent. -/
def calculated (data : ColumnData) : Except String Bool :=
  match data.lookup "calculated" with
  | none => .ok false
  | some v => parse_bool v

/-- Embedding of `ColumnAPI.formula` (`api/column.py` lines 23-27): the parsed
formula when the key is present, `None` otherwise. -/
def formula (data : ColumnData) : Except String (Option String) :=
  match data.lookup "formula" with
  | some v =>
    match parse_str v with
    | .error msg => .error msg
    | .ok s => .ok (some s)
  | none => .ok none

end ColumnAPI

namespace TableParse

open Parse

/-- Embedding of the `Column` dataclass of `table.py` (lines 10-14). -/
structure Column where
  id : String
  name : String
  formula : Option String
deriving DecidableEq, Repr

/-- Embedding of the `Row` dataclass of `table.py` (lines 16-18). -/
structure Row where
  cells : List String
deriving DecidableEq, Repr

/-- Embedding of the `Table` dataclass of `table.py` (lines 20-23). -/
structure Table where
  columns : List Column
  rows : List Row
deriving DecidableEq, Repr

/-- Embedding of `RowAPI` (`api/row.py`): `id()` and `index()` are the parsed
`"id"`/`"index"` entries of the raw dict, `values` is the `"values"` dict of
cell values keyed by column id (modelled with the cell values already
stringified, as `get_cell_value` applies `str`). -/
structure RowAPI where
  id : String
  index : Int
  values : List (String × String)
deriving DecidableEq, Repr

/-- Embedding of `RowAPI.num_cells` (`api/row.py` lines 16-17):
`len(self._data["values"])`. -/
def num_cells (r : RowAPI) : Nat := r.values.length

/-- Embedding of `RowAPI.get_cell_value` (`api/row.py` lines 19-20):
`str(self._data["values"][column_id])`; indexing raises `KeyError` on an
absent column id. -/
def get_cell_value (r : RowAPI) (column_id : String) : Except String String :=
  match r.values.lookup column_id with
  | some v => .ok v
  | none => .error "KeyError: column id not in row values"

/-- A Python list comprehension over fallible element computations: stops and
raises at the first failing element, otherwise collects all results in order. -/
def mapExcept {α β : Type} (f : α → Except String β) : List α → Except String (List β)
  | [] => .ok []
  | x :: xs =>
    match f x with
    | .error msg => .error msg
    | .ok y =>
      match mapExcept f xs with
      | .error msg => .error msg
      | .ok ys => .ok (y :: ys)

/-- Embedding of `_parse_column` (`table.py` lines 60-65). -/
def parse_column (column : ColumnAPI.ColumnData) : Except String Column :=
  match ColumnAPI.id column with
  | .error msg => .error msg
  | .ok i =>
    match ColumnAPI.name column with
    | .error msg => .error msg
    | .ok n =>
      match ColumnAPI.formula column with
      | .error msg => .error msg
      | .ok f => .ok ⟨i, n, f⟩

/-- Embedding of `_parse_row` (`table.py` lines 67-73): raise when the raw
row's cell count differs from the column count, otherwise look every column's
cell up by column id, in column order. -/
def parse_row (columns : List Column) (row : RowAPI) : Except String Row :=
  if num_cells row ≠ columns.length then
    .error "Row has wrong number of cells"
  else
    match mapExcept (fun column => get_cell_value row column.id) columns with
    | .error msg => .error msg
    | .ok cells => .ok ⟨cells⟩

/-- The comparison key of `rows.sort(key=lambda row: row.index())`
(`table.py` line 52). -/
def rowLE (a b : RowAPI) : Prop := a.index ≤ b.index

instance : DecidableRel rowLE := fun a b => inferInstanceAs (Decidable (a.index ≤ b.index))

instance : IsTotal RowAPI rowLE := ⟨fun a b => Int.le_total a.index b.index⟩

instance : IsTrans RowAPI rowLE := ⟨fun _ _ _ hab hbc => le_trans hab hbc⟩

/-- Embedding of `parse_table_from_api` (`table.py` lines 51-58): sort the raw
rows by ascending row index (`list.sort` is a stable sort, modelled by
insertion sort), parse the columns, then parse every row against the parsed
columns. -/
def parse_table_from_api (columns : List ColumnAPI.ColumnData) (rows : List RowAPI) :
    Except String Table :=
  let sortedRows := List.insertionSort rowLE rows
  match mapExcept parse_column columns with
  | .error msg => .error msg
  | .ok parsed_columns =>
    match mapExcept (parse_row parsed_columns) sortedRows with
    | .error msg => .error msg
    | .ok parsed_rows => .ok ⟨parsed_columns, parsed_rows⟩

end TableParse

namespace Reimport

/-- Modelled from the spec: the snapshot column type consumed by
`reimport.py`.  `reimport.py` reads snapshots through `Table.from_json` and
accesses `column.calculated`, but the provided `table.py` is an older version
without `from_json`, without a `calculated` field on `Column`, and without
`id`/`name` on `Table`; the snapshot shape is therefore taken from the spec
(§3/§6): "columns with id/name/calculated/formula". -/
structure SnapshotColumn where
  id : String
  name : String
  calculated : Bool
  formula : Option String
deriving DecidableEq, Repr

/-- Modelled from the spec: a snapshot row, "rows as ordered cell arrays". -/
structure SnapshotRow where
  cells : List String
deriving DecidableEq, Repr

/-- Modelled from the spec: the table snapshot (`TableSnapshot`): "id, name,
ordered columns (...), ordered rows (cell values aligned to columns)". -/
structure SnapshotTable where
  id : String
  name : String
  columns : List SnapshotColumn
  rows : List SnapshotRow
deriving DecidableEq, Repr

/-- One Python dict assignment `d[k] = v` on a dict modelled as an
insertion-ordered association list: overwrite in place when the key exists,
append otherwise. -/
def dictSet (d : List (String × String)) (k v : String) : List (String × String) :=
  if d.any (fun p => p.1 = k) then
    d.map (fun p => if p.1 = k then (k, v) else p)
  else
    d ++ [(k, v)]

/-- Embedding of `format_row` inside `_insert_rows` (`reimport.py` lines
135-141): raise when the snapshot's column count differs from the row's cell
count, otherwise build the dict sent to `insert_rows` by walking
`range(len(row.cells))` and keeping `columns[i].id -> cells[i]` exactly when
`table.columns[i].formula is None`. -/
def format_row (table : SnapshotTable) (row : SnapshotRow) :
    Except String (List (String × String)) :=
  if table.columns.length ≠ row.cells.length then
    .error "Export column count differs from a row's cell count"
  else
    .ok ((List.range row.cells.length).foldl
      (fun d i =>
        match table.columns[i]?, row.cells[i]? with
        | some column, some cell =>
          if column.formula = none then dictSet d column.id cell else d
        | _, _ => d)
      [])

/-- Embedding of the body of `_insert_rows` (`reimport.py` lines 134-143):
`cells = [format_row(row) for row in table.rows]` is the payload handed to
`table_api.insert_rows`. -/
def insert_rows_payload (table : SnapshotTable) :
    Except String (List (List (String × String))) :=
  TableParse.mapExcept (format_row table) table.rows

/-- The cells `format_row` keeps, stated positionally: the pairs
`(column.id, cell)` of the column/cell pairs whose column has no formula. -/
def includedCells (columns : List SnapshotColumn) (cells : List String) :
    List (String × String) :=
  (columns.zip cells).filterMap
    (fun p => if p.1.formula = none then some (p.1.id, p.2) else none)

end Reimport

namespace RateLimit

/-!
Small-step model of `AdaptiveRateLimit.__call__` (`utils/ratelimit.py`)
composed the way `api/client.py` stacks the decorators on `_get_page`, `post`
and `delete`:

    @_concurrency_limit   -- ConcurrencyLimit(50)  (utils/concurrencylimit.py)
    @retry(5)             -- utils/retry.py
    @_request_limit       -- AdaptiveRateLimit(TooManyRequests, 10)

Concurrency is asyncio's cooperative scheduling: code between two `await`
points runs atomically, so every transition of the model covers one such
atomic segment of one task.  Time is the monotonic clock in whole seconds
(`Nat`); `ceil` on the float clock is dropped because the model's clock is
already integral.  A sleeping task carries the earliest instant it may wake
at; it may be scheduled any time at or after it.
-/

/-- An exception raised by the wrapped operation, as dispatched by the
`except self._backoff_exception:` / bare `except:` pair in
`utils/ratelimit.py`: either the designated backoff exception
(`TooManyRequests` in `api/client.py`) or any unrelated exception. -/
inductive Exc where
  | rateLimit : Exc
  | other : Nat → Exc
deriving DecidableEq, Repr

/-- `_State` from `utils/ratelimit.py` lines 10-22. -/
inductive State where
  | normal
  | backoff
  | recover
deriving DecidableEq, Repr

/-- Where one composed call currently is, between two suspension points. -/
inductive PC where
  /-- suspended in `Semaphore.acquire` of `ConcurrencyLimit.__call__`. -/
  | waitingPermit
  /-- about to run the top of `while True:` (`ratelimit.py` line 45). -/
  | loopTop
  /-- suspended in `asyncio.sleep(1)` at line 48 (parked while recovering). -/
  | parkedRecover (wakeAt : Nat)
  /-- suspended in `_wait_backoff`'s `asyncio.sleep` (lines 123-127). -/
  | waitingBackoff
  /-- suspended in `await func(...)` at line 83; `isBackoff` is the local
  `is_backoff` (true exactly when this call is the probe). -/
  | runningFunc (isBackoff : Bool)
  /-- suspended in `asyncio.sleep(1)` at line 112 (probe hit an unrelated
  error). -/
  | sleepOther1 (wakeAt : Nat) (e : Exc)
  /-- suspended in `asyncio.sleep(10)` at line 118. -/
  | sleepOther10 (wakeAt : Nat) (e : Exc)
  /-- suspended in `asyncio.sleep(1)` of `retry` (`retry.py` line 29). -/
  | retrySleep (wakeAt : Nat) (e : Exc)
  /-- the composed call returned `v`; the permit has been released. -/
  | done (v : Nat)
  /-- the composed call raised `e` past `retry`; the permit has been
  released. -/
  | raised (e : Exc)
deriving DecidableEq, Repr

/-- One composed call: its position and its `remaining_retries` counter. -/
structure Task where
  pc : PC
  remaining : Nat
deriving DecidableEq, Repr

/-- The shared state: the rate limiter instance's `_state`/`_backoff_until`,
the monotonic clock, the semaphore's number of held permits, and all tasks. -/
structure Config where
  state : State
  backoffUntil : Nat
  time : Nat
  permits : Nat
  tasks : List Task
deriving DecidableEq, Repr

/-- Replace task `i`. -/
def setTask (c : Config) (i : Nat) (t : Task) : Config :=
  { c with tasks := c.tasks.set i t }

/-- One atomic pass from the top of `while True:` to the next suspension
point (`ratelimit.py` lines 45-83): park when recovering; read `is_backoff`;
when not in backoff, run the operation as a normal call; when in backoff with
the window still open, start sleeping in `_wait_backoff`; when the window has
already elapsed, `_wait_backoff` returns without suspending and this task is
the first one out, so it atomically elects itself probe
(`self._state = _State.recover`, line 63) and runs the operation. -/
def loopDispatch (c : Config) (i : Nat) (r : Nat) : Config :=
  match c.state with
  | .recover => setTask c i ⟨.parkedRecover (c.time + 1), r⟩
  | .normal => setTask c i ⟨.runningFunc false, r⟩
  | .backoff =>
    if c.backoffUntil ≤ c.time then
      { setTask c i ⟨.runningFunc true, r⟩ with state := .recover }
    else
      setTask c i ⟨.waitingBackoff, r⟩

/-- One atomic segment after `_wait_backoff` returns (`ratelimit.py` lines
57-83): re-check the shared state; if some other task moved it to recover or
normal meanwhile, go around the loop again; if it is still backoff, this task
is the first one out and elects itself probe. -/
def electDispatch (c : Config) (i : Nat) (r : Nat) : Config :=
  match c.state with
  | .recover => setTask c i ⟨.loopTop, r⟩
  | .normal => setTask c i ⟨.loopTop, r⟩
  | .backoff => { setTask c i ⟨.runningFunc true, r⟩ with state := .recover }

/-- The operation returned `v` (`ratelimit.py` lines 83-90): a probe resets
the shared state to normal; the value is returned through `retry` and the
permit is released by `ConcurrencyLimit`'s `async with`. -/
def okResume (c : Config) (i : Nat) (b : Bool) (v : Nat) (r : Nat) : Config :=
  if b then
    { setTask c i ⟨.done v, r⟩ with permits := c.permits - 1, state := .normal }
  else
    { setTask c i ⟨.done v, r⟩ with permits := c.permits - 1 }

/-- The operation raised the backoff exception (`ratelimit.py` lines 91-105):
a probe goes back to backoff and extends the window; a normal call starts the
backoff and sets the window; a call that sees another task recovering ignores
the failure (`continue` at line 100, before `_backoff_until` is touched); a
call that sees backoff already set only extends the window.  In every case
the loop continues: the exception is absorbed, never re-raised. -/
def rateResume (interval : Nat) (c : Config) (i : Nat) (b : Bool) (r : Nat) : Config :=
  if b then
    { setTask c i ⟨.loopTop, r⟩ with
        state := .backoff, backoffUntil := c.time + interval }
  else
    match c.state with
    | .normal =>
      { setTask c i ⟨.loopTop, r⟩ with
          state := .backoff, backoffUntil := c.time + interval }
    | .recover => setTask c i ⟨.loopTop, r⟩
    | .backoff => { setTask c i ⟨.loopTop, r⟩ with backoffUntil := c.time + interval }

/-- An exception reaches the `except:` of `retry` (`retry.py` lines 21-29):
with no retries left it is re-raised past the gate (which releases the
permit); otherwise the attempt counter goes down and the wrapper sleeps one
second before the next attempt. -/
def retryCatch (c : Config) (i : Nat) (r : Nat) (e : Exc) : Config :=
  match r with
  | 0 => { setTask c i ⟨.raised e, 0⟩ with permits := c.permits - 1 }
  | r' + 1 => setTask c i ⟨.retrySleep (c.time + 1) e, r'⟩

/-- The operation raised an unrelated exception (`ratelimit.py` lines
106-119): the probe first sleeps one second; a non-probe call re-raises
immediately, and the exception lands in `retry`. -/
def otherResume (c : Config) (i : Nat) (b : Bool) (n : Nat) (r : Nat) : Config :=
  if b then
    setTask c i ⟨.sleepOther1 (c.time + 1) (.other n), r⟩
  else
    retryCatch c i r (.other n)

/-- One scheduling step of the composed system.  `interval` is
`backoff_interval_sec` (10 in `api/client.py`), `capacity` is the
`ConcurrencyLimit` bound (50), `maxRetries` is the `retry` bound (5). -/
inductive Step (interval capacity maxRetries : Nat) : Config → Config → Prop where
  /-- the monotonic clock advances. -/
  | tick (c : Config) (d : Nat) :
      Step interval capacity maxRetries c { c with time := c.time + d }
  /-- `Semaphore.acquire` admits a waiting call when a permit is free
  (`concurrencylimit.py` lines 17-19); `remaining_retries` is initialized
  by `retry` (`retry.py` line 17). -/
  | acquire (c : Config) (i r : Nat)
      (h : c.tasks[i]? = some ⟨.waitingPermit, r⟩)
      (hcap : c.permits < capacity) :
      Step interval capacity maxRetries c
        { setTask c i ⟨.loopTop, maxRetries⟩ with permits := c.permits + 1 }
  /-- run the top of the rate limiter loop. -/
  | loop (c : Config) (i r : Nat)
      (h : c.tasks[i]? = some ⟨.loopTop, r⟩) :
      Step interval capacity maxRetries c (loopDispatch c i r)
  /-- wake from the recover-parking sleep and go around the loop. -/
  | wakePark (c : Config) (i w r : Nat)
      (h : c.tasks[i]? = some ⟨.parkedRecover w, r⟩) (hw : w ≤ c.time) :
      Step interval capacity maxRetries c (setTask c i ⟨.loopTop, r⟩)
  /-- `_wait_backoff` only returns once the clock has reached
  `_backoff_until` (`ratelimit.py` lines 123-127). -/
  | backoffExit (c : Config) (i r : Nat)
      (h : c.tasks[i]? = some ⟨.waitingBackoff, r⟩)
      (hw : c.backoffUntil ≤ c.time) :
      Step interval capacity maxRetries c (electDispatch c i r)
  /-- the wrapped operation returns. -/
  | funcOk (c : Config) (i : Nat) (b : Bool) (v r : Nat)
      (h : c.tasks[i]? = some ⟨.runningFunc b, r⟩) :
      Step interval capacity maxRetries c (okResume c i b v r)
  /-- the wrapped operation raises the backoff exception. -/
  | funcRate (c : Config) (i : Nat) (b : Bool) (r : Nat)
      (h : c.tasks[i]? = some ⟨.runningFunc b, r⟩) :
      Step interval capacity maxRetries c (rateResume interval c i b r)
  /-- the wrapped operation raises an unrelated exception. -/
  | funcOther (c : Config) (i : Nat) (b : Bool) (n r : Nat)
      (h : c.tasks[i]? = some ⟨.runningFunc b, r⟩) :
      Step interval capacity maxRetries c (otherResume c i b n r)
  /-- the probe wakes from the one-second sleep at `ratelimit.py` line 112,
  flips the shared state back to backoff WITHOUT touching `_backoff_until`
  (line 116), and starts the ten-second sleep of line 118. -/
  | wakeOther1 (c : Config) (i w : Nat) (e : Exc) (r : Nat)
      (h : c.tasks[i]? = some ⟨.sleepOther1 w e, r⟩) (hw : w ≤ c.time) :
      Step interval capacity maxRetries c
        { setTask c i ⟨.sleepOther10 (c.time + 10) e, r⟩ with state := .backoff }
  /-- the probe wakes from the ten-second sleep and re-raises the unrelated
  exception (`raise` at line 119), which lands in `retry`. -/
  | wakeOther10 (c : Config) (i w : Nat) (e : Exc) (r : Nat)
      (h : c.tasks[i]? = some ⟨.sleepOther10 w e, r⟩) (hw : w ≤ c.time) :
      Step interval capacity maxRetries c (retryCatch c i r e)
  /-- wake from `retry`'s one-second sleep and invoke the rate-limited
  operation again (a fresh pass of `while True:`). -/
  | wakeRetry (c : Config) (i w : Nat) (e : Exc) (r : Nat)
      (h : c.tasks[i]? = some ⟨.retrySleep w e, r⟩) (hw : w ≤ c.time) :
      Step interval capacity maxRetries c (setTask c i ⟨.loopTop, r⟩)

/-- `n` fresh concurrent calls against a fresh limiter
(`_state = normal`, `_backoff_until = 0`) and a fresh semaphore. -/
def init (n : Nat) : Config :=
  ⟨.normal, 0, 0, 0, List.replicate n ⟨.waitingPermit, 0⟩⟩

/-- Configurations reachable from the initial one. -/
def Reachable (interval capacity maxRetries n : Nat) (c : Config) : Prop :=
  Relation.ReflTransGen (Step interval capacity maxRetries) (init n) c

/-- A task currently holding the probe/Recovering role: it elected itself by
the `Backoff → Recover` transition and has not yet resolved the recovery (it
is either running the operation as probe, or sleeping right after the probe
hit an unrelated error, before it flips the state back to backoff). -/
def isProbe (t : Task) : Bool :=
  match t.pc with
  | .runningFunc true => true
  | .sleepOther1 _ _ => true
  | _ => false

/-- How many tasks hold the probe/Recovering role. -/
def probeCount (c : Config) : Nat := c.tasks.countP isProbe

/-- A task that currently holds a concurrency permit: it has been admitted by
the semaphore and has not yet terminated. -/
def isActive (t : Task) : Bool :=
  match t.pc with
  | .waitingPermit => false
  | .done _ => false
  | .raised _ => false
  | _ => true

/-- How many tasks hold a permit. -/
def activeCount (c : Config) : Nat := c.tasks.countP isActive

/-- The exception a suspended or terminated task is carrying, if any. -/
def carriedExc : PC → Option Exc
  | .sleepOther1 _ e => some e
  | .sleepOther10 _ e => some e
  | .retrySleep _ e => some e
  | .raised e => some e
  | _ => none

/-- The inductive invariant of the composed system: exactly one probe while
the shared state is recover and none otherwise; the backoff window never
reaches further than one interval past the clock; every carried exception is
unrelated to the rate limit; the semaphore count equals the number of
admitted unfinished calls and respects the capacity. -/
def Inv (interval capacity : Nat) (c : Config) : Prop :=
  (probeCount c = if c.state = .recover then 1 else 0) ∧
  c.backoffUntil ≤ c.time + interval ∧
  (∀ t ∈ c.tasks, carriedExc t.pc ≠ some .rateLimit) ∧
  c.permits = activeCount c ∧
  c.permits ≤ capacity

end RateLimit

/-! ## Theorems -/

namespace Retry

theorem retryAux_ok {E A : Type} (f : Nat → Except E A) (k j remaining : Nat) (v : A)
    (hk : k ≤ remaining) (hfail : ∀ i, i < k → ∃ e, f (j + i) = .error e)
    (hok : f (j + k) = .ok v) :
    retryAux f j remaining = (.ok v, k + 1, List.replicate k 1) := by
  induction k generalizing j remaining with
  | zero =>
    simp only [Nat.add_zero] at hok
    cases remaining with
    | zero => simp [retryAux, hok]
    | succ m => simp [retryAux, hok]
  | succ k ih =>
    obtain ⟨e, he⟩ := hfail 0 (Nat.succ_pos k)
    simp only [Nat.add_zero] at he
    cases remaining with
    | zero => omega
    | succ m =>
      have hrest : retryAux f (j + 1) m = (.ok v, k + 1, List.replicate k 1) := by
        apply ih (j + 1) m (by omega)
        · intro i hi
          obtain ⟨e', he'⟩ := hfail (i + 1) (by omega)
          exact ⟨e', by rw [show j + 1 + i = j + (i + 1) by omega]; exact he'⟩
        · rw [show j + 1 + k = j + (k + 1) by omega]; exact hok
      simp [retryAux, he, hrest, List.replicate_succ]

theorem retryAux_err {E A : Type} (f : Nat → Except E A) (remaining j : Nat)
    (hfail : ∀ i, i ≤ remaining → ∃ e, f (j + i) = .error e) :
    retryAux f j remaining = (f (j + remaining), remaining + 1, List.replicate remaining 1) := by
  induction remaining generalizing j with
  | zero => simp [retryAux]
  | succ m ih =>
    obtain ⟨e, he⟩ := hfail 0 (Nat.zero_le _)
    simp only [Nat.add_zero] at he
    have hrest := ih (j + 1) (by
      intro i hi
      obtain ⟨e', he'⟩ := hfail (i + 1) (by omega)
      exact ⟨e', by rw [show j + 1 + i = j + (i + 1) by omega]; exact he'⟩)
    rw [show j + 1 + m = j + (m + 1) by omega] at hrest
    simp [retryAux, he, hrest, List.replicate_succ]

/-- C3: the retry wrapper (`utils/retry.py`) is exact: an operation that
fails on its first `k` invocations (`k ≤ maxRetries`) and succeeds on
invocation `k` returns that success after exactly `k + 1` invocations with a
fixed one-second sleep between consecutive invocations; an operation that
fails on every invocation is invoked exactly `maxRetries + 1` times and the
last failure is propagated unchanged. -/
theorem retry_exactness :
    (∀ (E A : Type) (f : Nat → Except E A) (maxRetries k : Nat) (v : A),
        k ≤ maxRetries → (∀ i, i < k → ∃ e, f i = .error e) → f k = .ok v →
        retry maxRetries f = (.ok v, k + 1, List.replicate k 1)) ∧
    (∀ (E A : Type) (f : Nat → Except E A) (maxRetries : Nat),
        (∀ i, i ≤ maxRetries → ∃ e, f i = .error e) →
        ∃ e, f maxRetries = .error e ∧
          retry maxRetries f = (.error e, maxRetries + 1, List.replicate maxRetries 1)) := by
  constructor
  · intro E A f maxRetries k v hk hfail hok
    have := retryAux_ok f k 0 maxRetries v hk (by simpa using hfail) (by simpa using hok)
    simpa [retry] using this
  · intro E A f maxRetries hfail
    obtain ⟨e, he⟩ := hfail maxRetries le_rfl
    refine ⟨e, he, ?_⟩
    have := retryAux_err f maxRetries 0 (by simpa using hfail)
    simpa [retry, he] using this

/-- Witness for C3: an operation failing exactly twice then succeeding, with
`maxRetries = 5` (the value used by `api/client.py`), succeeds after 3
invocations and 2 sleeps. -/
theorem retry_exactness_witness :
    retry 5 (fun i => if i < 2 then (.error "boom" : Except String Nat) else .ok 7) =
      (.ok 7, 3, List.replicate 2 1) := by
  apply retry_exactness.1 String Nat _ 5 2 7
  · omega
  · intro i hi
    exact ⟨"boom", by simp [hi]⟩
  · simp

end Retry

namespace ColumnAPI

/-- C9: `ColumnAPI` tolerates absent optional fields: `calculated()` returns
`False` when the `"calculated"` key is absent and `formula()` returns `None`
when the `"formula"` key is absent; neither raises on absence. -/
theorem tolerates_absent_optional_fields :
    ∀ (data : ColumnData),
      (data.lookup "calculated" = none → calculated data = .ok false) ∧
      (data.lookup "formula" = none → formula data = .ok none) := by
  intro data
  constructor
  · intro h; simp [calculated, h]
  · intro h; simp [formula, h]

/-- Witness for C9: a column dict holding only `"id"` and `"name"`. -/
theorem tolerates_absent_optional_fields_witness :
    calculated [("id", Parse.PyVal.str "c-1"), ("name", Parse.PyVal.str "A")] = .ok false ∧
    formula [("id", Parse.PyVal.str "c-1"), ("name", Parse.PyVal.str "A")] = .ok none := by
  have h := tolerates_absent_optional_fields
    [("id", Parse.PyVal.str "c-1"), ("name", Parse.PyVal.str "A")]
  exact ⟨h.1 rfl, h.2 rfl⟩

end ColumnAPI

namespace Gather

theorem errorsOf_eq_nil {E T : Type} (results : List (Except E T))
    (h : ∀ r ∈ results, ∃ v, r = Except.ok v) : errorsOf results = [] := by
  induction results with
  | nil => rfl
  | cons r rs ih =>
    obtain ⟨v, hv⟩ := h r (List.mem_cons_self r rs)
    subst hv
    simpa [errorsOf] using ih (fun r hr => h r (List.mem_cons_of_mem _ hr))

theorem valuesOf_forall₂ {E T : Type} (results : List (Except E T))
    (h : ∀ r ∈ results, ∃ v, r = Except.ok v) :
    List.Forall₂ (fun r v => r = Except.ok v) results (valuesOf results) := by
  induction results with
  | nil => simp [valuesOf]
  | cons r rs ih =>
    obtain ⟨v, hv⟩ := h r (List.mem_cons_self r rs)
    subst hv
    simpa [valuesOf] using ih (fun r hr => h r (List.mem_cons_of_mem _ hr))

theorem errorsOf_first {E T : Type} (results : List (Except E T)) (i : Nat) (e : E)
    (hi : results[i]? = some (Except.error e))
    (hfirst : ∀ j, j < i → ∀ e', results[j]? ≠ some (Except.error e')) :
    ∃ tl, errorsOf results = e :: tl := by
  induction results generalizing i with
  | nil => simp at hi
  | cons r rs ih =>
    cases i with
    | zero =>
      simp at hi
      subst hi
      exact ⟨errorsOf rs, rfl⟩
    | succ i' =>
      have hr : ∃ v, r = Except.ok v := by
        cases r with
        | ok v => exact ⟨v, rfl⟩
        | error e' =>
          have h0 := hfirst 0 (Nat.succ_pos i') e'
          simp at h0
      obtain ⟨v, hv⟩ := hr
      subst hv
      simp only [List.getElem?_cons_succ] at hi
      have := ih i' hi (by
        intro j hj e' hj'
        exact hfirst (j + 1) (by omega) e' (by simpa using hj'))
      simpa [errorsOf] using this

theorem mem_errorsOf {E T : Type} {results : List (Except E T)} {e : E}
    (he : Except.error e ∈ results) : e ∈ errorsOf results := by
  simp only [errorsOf, List.mem_filterMap]
  exact ⟨Except.error e, he, rfl⟩

/-- C2: `gather_raise_first_error_after_all_tasks_complete`
(`utils/gather.py`) consumes the terminal outcome of every launched task
(submission order): every failure is logged; when no task failed it returns
all results in submission order; when some task failed it raises the failure
of the lowest submission index; a failure is raised iff some task failed. -/
theorem gather_complete_then_raise_first :
    ∀ (E T : Type) (results : List (Except E T)),
      (∀ e, Except.error e ∈ results →
        e ∈ (gather_raise_first_error_after_all_tasks_complete results).1) ∧
      (gather_raise_first_error_after_all_tasks_complete results).1 = errorsOf results ∧
      ((∀ r ∈ results, ∃ v, r = Except.ok v) →
        (gather_raise_first_error_after_all_tasks_complete results).2 =
            Except.ok (valuesOf results) ∧
        List.Forall₂ (fun r v => r = Except.ok v) results (valuesOf results)) ∧
      (∀ (i : Nat) (e : E), results[i]? = some (Except.error e) →
        (∀ j, j < i → ∀ e', results[j]? ≠ some (Except.error e')) →
        (gather_raise_first_error_after_all_tasks_complete results).2 = Except.error e) ∧
      ((∃ e, (gather_raise_first_error_after_all_tasks_complete results).2 =
          Except.error e) ↔ ∃ e, Except.error e ∈ results) := by
  intro E T results
  refine ⟨?_, ?_, ?_, ?_, ?_⟩
  · intro e he
    have hmem := mem_errorsOf he
    cases h : errorsOf results with
    | nil => rw [h] at hmem; simp at hmem
    | cons e0 tl =>
      rw [h] at hmem
      simpa [gather_raise_first_error_after_all_tasks_complete, h] using hmem
  · cases h : errorsOf results <;>
      simp [gather_raise_first_error_after_all_tasks_complete, h]
  · intro hall
    have hnil := errorsOf_eq_nil results hall
    exact ⟨by simp [gather_raise_first_error_after_all_tasks_complete, hnil],
      valuesOf_forall₂ results hall⟩
  · intro i e hi hfirst
    obtain ⟨tl, htl⟩ := errorsOf_first results i e hi hfirst
    simp [gather_raise_first_error_after_all_tasks_complete, htl]
  · constructor
    · rintro ⟨e, he⟩
      cases h : errorsOf results with
      | nil =>
        rw [show (gather_raise_first_error_after_all_tasks_complete results).2 =
            Except.ok (valuesOf results) by
          simp [gather_raise_first_error_after_all_tasks_complete, h]] at he
        exact absurd he (by simp)
      | cons e0 tl =>
        have he0 : (gather_raise_first_error_after_all_tasks_complete results).2 =
            Except.error e0 := by
          simp [gather_raise_first_error_after_all_tasks_complete, h]
        have hmem : e0 ∈ errorsOf results := by rw [h]; exact List.mem_cons_self _ _
        simp only [errorsOf, List.mem_filterMap] at hmem
        obtain ⟨r, hr, hre⟩ := hmem
        cases r with
        | ok v => simp at hre
        | error e1 =>
          simp only [Option.some.injEq] at hre
          subst hre
          exact ⟨_, hr⟩
    · rintro ⟨e, he⟩
      have hmem := mem_errorsOf he
      cases h : errorsOf results with
      | nil => rw [h] at hmem; simp at hmem
      | cons e0 tl =>
        exact ⟨e0, by simp [gather_raise_first_error_after_all_tasks_complete, h]⟩

/-- Witness for C2: outcomes `[ok 1, error "b", error "c"]` raise the failure
of the lowest failed submission index, namely `"b"`. -/
theorem gather_complete_then_raise_first_witness :
    (gather_raise_first_error_after_all_tasks_complete
        [Except.ok 1, Except.error "b", (Except.error "c" : Except String Nat)]).2 =
      Except.error "b" := by
  apply (gather_complete_then_raise_first String Nat
    [Except.ok 1, Except.error "b", Except.error "c"]).2.2.2.1 1 "b"
  · rfl
  · intro j hj e'
    have hj0 : j = 0 := by omega
    subst hj0
    simp

end Gather

namespace TableParse

theorem mapExcept_ok_forall₂ {α β : Type} {f : α → Except String β}
    {l : List α} {ys : List β} (h : mapExcept f l = .ok ys) :
    List.Forall₂ (fun x y => f x = Except.ok y) l ys := by
  induction l generalizing ys with
  | nil =>
    simp only [mapExcept] at h
    cases h
    exact List.Forall₂.nil
  | cons x xs ih =>
    simp only [mapExcept] at h
    split at h
    · exact absurd h (by simp)
    · rename_i y hx
      split at h
      · exact absurd h (by simp)
      · rename_i ys' hxs
        simp only [Except.ok.injEq] at h
        subst h
        exact List.Forall₂.cons hx (ih hxs)

theorem mapExcept_ok_mem {α β : Type} {f : α → Except String β}
    {l : List α} {ys : List β} {x : α} (h : mapExcept f l = .ok ys) (hx : x ∈ l) :
    ∃ y, f x = Except.ok y := by
  induction l generalizing ys with
  | nil => simp at hx
  | cons a l ih =>
    simp only [mapExcept] at h
    split at h
    · exact absurd h (by simp)
    · rename_i y ha
      split at h
      · exact absurd h (by simp)
      · rename_i ys' hl
        rcases List.mem_cons.mp hx with hxa | hxl
        · subst hxa; exact ⟨y, ha⟩
        · exact ih hl hxl

theorem mapExcept_error_of_mem {α β : Type} {f : α → Except String β}
    {l : List α} {x : α} (hx : x ∈ l) (hfail : ∀ y, f x ≠ Except.ok y) :
    ∃ msg, mapExcept f l = .error msg := by
  cases h : mapExcept f l with
  | error msg => exact ⟨msg, rfl⟩
  | ok ys =>
    obtain ⟨y, hy⟩ := mapExcept_ok_mem h hx
    exact absurd hy (hfail y)

/-- C10: `parse_table_from_api` (`table.py` lines 51-73) returns rows sorted
by ascending raw row index regardless of the input order; every parsed row
has exactly one cell per table column, in the table's column order; and a raw
row whose cell count differs from the column count makes parsing raise. -/
theorem parse_table_sorted_and_aligned :
    (∀ (columns : List ColumnAPI.ColumnData) (rows : List RowAPI) (t : Table),
        parse_table_from_api columns rows = .ok t →
        ∃ rows', rows.Perm rows' ∧ List.Sorted rowLE rows' ∧
          List.Forall₂ (fun r pr => parse_row t.columns r = Except.ok pr) rows' t.rows) ∧
    (∀ (cols : List Column) (r : RowAPI) (pr : Row),
        parse_row cols r = .ok pr →
        num_cells r = cols.length ∧
        pr.cells.length = cols.length ∧
        List.Forall₂ (fun c v => get_cell_value r c.id = Except.ok v) cols pr.cells) ∧
    (∀ (columns : List ColumnAPI.ColumnData) (rows : List RowAPI),
        (∃ r ∈ rows, num_cells r ≠ columns.length) →
        ∃ msg, parse_table_from_api columns rows = .error msg) := by
  refine ⟨?_, ?_, ?_⟩
  · intro columns rows t h
    simp only [parse_table_from_api] at h
    split at h
    · exact absurd h (by simp)
    · rename_i pcols hc
      split at h
      · exact absurd h (by simp)
      · rename_i prows hr
        simp only [Except.ok.injEq] at h
        subst h
        refine ⟨List.insertionSort rowLE rows, (List.perm_insertionSort rowLE rows).symm,
          List.sorted_insertionSort rowLE rows, ?_⟩
        exact mapExcept_ok_forall₂ hr
  · intro cols r pr h
    simp only [parse_row] at h
    split at h
    · exact absurd h (by simp)
    · rename_i hn
      push_neg at hn
      split at h
      · exact absurd h (by simp)
      · rename_i cells hcells
        simp only [Except.ok.injEq] at h
        subst h
        have hf := mapExcept_ok_forall₂ hcells
        exact ⟨hn, hf.length_eq.symm, hf⟩
  · intro columns rows hbad
    obtain ⟨r, hr, hn⟩ := hbad
    simp only [parse_table_from_api]
    cases hc : mapExcept parse_column columns with
    | error msg => exact ⟨msg, rfl⟩
    | ok pcols =>
      have hlen : pcols.length = columns.length :=
        (mapExcept_ok_forall₂ hc).length_eq.symm
      have hrs : r ∈ List.insertionSort rowLE rows :=
        ((List.perm_insertionSort rowLE rows).mem_iff).mpr hr
      have hfail : ∀ pr, parse_row pcols r ≠ Except.ok pr := by
        intro pr hpr
        simp only [parse_row] at hpr
        rw [if_pos (by omega : num_cells r ≠ pcols.length)] at hpr
        exact absurd hpr (by simp)
      obtain ⟨msg, hmsg⟩ := mapExcept_error_of_mem hrs hfail
      refine ⟨msg, ?_⟩
      show (match mapExcept (parse_row pcols) (List.insertionSort rowLE rows) with
        | Except.error msg2 => Except.error msg2
        | Except.ok parsed_rows => Except.ok (⟨pcols, parsed_rows⟩ : Table)) =
          Except.error msg
      rw [hmsg]

/-- Witness for C10: two raw rows arriving in descending index order are
returned ascending, with one cell per column. -/
theorem parse_table_sorted_and_aligned_witness :
    ∃ rows', ([(⟨"r2", 2, [("c1", "y")]⟩ : RowAPI), ⟨"r1", 1, [("c1", "x")]⟩].Perm rows') ∧
      List.Sorted rowLE rows' ∧
      List.Forall₂
        (fun r pr => parse_row (⟨[⟨"c1", "A", none⟩], [⟨["x"]⟩, ⟨["y"]⟩]⟩ : Table).columns r
            = Except.ok pr)
        rows' (⟨[⟨"c1", "A", none⟩], [⟨["x"]⟩, ⟨["y"]⟩]⟩ : Table).rows := by
  apply parse_table_sorted_and_aligned.1
    [[("id", Parse.PyVal.str "c1"), ("name", Parse.PyVal.str "A")]]
    [⟨"r2", 2, [("c1", "y")]⟩, ⟨"r1", 1, [("c1", "x")]⟩]
  rfl

end TableParse

namespace Reimport

theorem dictSet_fresh (d : List (String × String)) (k v : String)
    (h : ∀ p ∈ d, p.1 ≠ k) : dictSet d k v = d ++ [(k, v)] := by
  have hc : ¬(d.any (fun p => p.1 = k) = true) := by
    rw [List.any_eq_true]
    rintro ⟨p, hp, hpk⟩
    exact h p hp (by simpa using hpk)
  unfold dictSet
  rw [if_neg hc]

theorem includedCells_key_mem {columns : List SnapshotColumn} {cells : List String}
    {p : String × String} (hp : p ∈ includedCells columns cells) :
    p.1 ∈ columns.map SnapshotColumn.id := by
  simp only [includedCells, List.mem_filterMap] at hp
  obtain ⟨q, hq, hqp⟩ := hp
  by_cases hf : q.1.formula = none
  · rw [if_pos hf] at hqp
    simp only [Option.some.injEq] at hqp
    subst hqp
    have := List.of_mem_zip (show (q.1, q.2) ∈ columns.zip cells from hq)
    exact List.mem_map_of_mem SnapshotColumn.id this.1
  · rw [if_neg hf] at hqp
    simp at hqp

theorem nodup_getElem_not_mem_take {α : Type} (l : List α) (hn : l.Nodup) (k : Nat)
    (hk : k < l.length) : l[k] ∉ l.take k := by
  intro hmem
  obtain ⟨j, hj, hjk⟩ := List.mem_iff_getElem.mp hmem
  have hjlen : j < k := by
    have := hj
    simp [List.length_take] at this
    omega
  rw [List.getElem_take l] at hjk
  have : j = k := (hn.getElem_inj_iff).mp hjk
  omega

theorem includedCells_take_succ (columns : List SnapshotColumn) (cells : List String)
    (k : Nat) (hk : k < columns.length) (hk' : k < cells.length) :
    includedCells (columns.take (k + 1)) (cells.take (k + 1)) =
      includedCells (columns.take k) (cells.take k) ++
        (if columns[k].formula = none then [(columns[k].id, cells[k])] else []) := by
  unfold includedCells
  rw [List.take_succ, List.take_succ, List.getElem?_eq_getElem hk,
    List.getElem?_eq_getElem hk', Option.toList_some, Option.toList_some,
    List.zip_append (by simp [List.length_take]; omega), List.filterMap_append]
  congr 1
  by_cases hf : columns[k].formula = none
  · simp [hf]
  · simp [hf]

theorem format_row_foldl (columns : List SnapshotColumn) (cells : List String)
    (hnodup : (columns.map SnapshotColumn.id).Nodup) (k : Nat)
    (hk : k ≤ columns.length) (hk' : k ≤ cells.length) :
    (List.range k).foldl
      (fun d i =>
        match columns[i]?, cells[i]? with
        | some column, some cell =>
          if column.formula = none then dictSet d column.id cell else d
        | _, _ => d) [] =
    includedCells (columns.take k) (cells.take k) := by
  induction k with
  | zero => simp [includedCells]
  | succ k ih =>
    rw [List.range_succ, List.foldl_append, ih (by omega) (by omega)]
    simp only [List.foldl_cons, List.foldl_nil]
    rw [List.getElem?_eq_getElem (show k < columns.length by omega),
      List.getElem?_eq_getElem (show k < cells.length by omega)]
    simp only []
    rw [includedCells_take_succ columns cells k (by omega) (by omega)]
    by_cases hf : columns[k].formula = none
    · rw [if_pos hf, if_pos hf]
      apply dictSet_fresh
      intro p hp
      have hkey := includedCells_key_mem hp
      rw [List.map_take] at hkey
      intro hpk
      rw [hpk] at hkey
      have hk2 : k < (columns.map SnapshotColumn.id).length := by
        simpa using (show k < columns.length by omega)
      have hmem2 : (columns.map SnapshotColumn.id)[k] ∈
          (columns.map SnapshotColumn.id).take k := by
        simpa [List.getElem_map] using hkey
      exact nodup_getElem_not_mem_take _ hnodup k hk2 hmem2
    · rw [if_neg hf, if_neg hf, List.append_nil]

theorem format_row_ok_eq (table : SnapshotTable) (row : SnapshotRow)
    (hnodup : (table.columns.map SnapshotColumn.id).Nodup)
    (hlen : table.columns.length = row.cells.length) :
    format_row table row = .ok (includedCells table.columns row.cells) := by
  unfold format_row
  rw [if_neg (by omega)]
  congr 1
  have := format_row_foldl table.columns row.cells hnodup row.cells.length
    (by omega) le_rfl
  rw [this, List.take_length, show table.columns.take row.cells.length = table.columns by
    rw [← hlen, List.take_length]]

theorem includedCells_mem_iff (columns : List SnapshotColumn) (cells : List String)
    (hnodup : (columns.map SnapshotColumn.id).Nodup) (i : Nat)
    (hc : i < columns.length) (hr : i < cells.length) :
    ((columns[i].id, cells[i]) ∈ includedCells columns cells ↔
      columns[i].formula = none) := by
  constructor
  · intro hmem
    simp only [includedCells, List.mem_filterMap] at hmem
    obtain ⟨q, hq, hqp⟩ := hmem
    by_cases hf : q.1.formula = none
    · rw [if_pos hf] at hqp
      simp only [Option.some.injEq, Prod.mk.injEq] at hqp
      obtain ⟨j, hj, hjq⟩ := List.mem_iff_getElem.mp hq
      have hjc : j < columns.length := by simp [List.length_zip] at hj; omega
      rw [List.getElem_zip] at hjq
      have hq1 : q.1 = columns[j] := by rw [← hjq]
      have hid : columns[j].id = columns[i].id := by rw [← hq1]; exact hqp.1
      have hij : j = i := by
        have hjc2 : j < (columns.map SnapshotColumn.id).length := by simpa using hjc
        have hic2 : i < (columns.map SnapshotColumn.id).length := by simpa using hc
        have hmapj : (columns.map SnapshotColumn.id)[j] =
            (columns.map SnapshotColumn.id)[i] := by
          simpa [List.getElem_map] using hid
        exact hnodup.getElem_inj_iff.mp hmapj
      subst hij
      rw [hq1] at hf
      exact hf
    · rw [if_neg hf] at hqp
      simp at hqp
  · intro hf
    simp only [includedCells, List.mem_filterMap]
    refine ⟨(columns[i], cells[i]), ?_, ?_⟩
    · have hi : i < (columns.zip cells).length := by simp [List.length_zip]; omega
      have := List.getElem_mem hi
      rwa [List.getElem_zip] at this
    · simp [hf]

/-- C1 counterexample: the claim "a cell is included in the insert payload
iff its column is not calculated" is false on the code: `_insert_rows`
(`reimport.py` lines 138-140) filters on `formula is None`, so the cell of a
column whose calculated flag is set but which has no formula is still sent. -/
theorem insert_rows_claim_counterexample :
    ¬ (∀ (table : SnapshotTable) (row : SnapshotRow) (d : List (String × String)),
        format_row table row = .ok d →
        ∀ (i : Nat) (hc : i < table.columns.length) (hr : i < row.cells.length),
          ((table.columns[i].id, row.cells[i]) ∈ d ↔
            table.columns[i].calculated = false)) := by
  intro h
  have := h ⟨"t1", "T", [⟨"c1", "Col1", true, none⟩], [⟨["v1"]⟩]⟩ ⟨["v1"]⟩
    [("c1", "v1")] (by rfl) 0 (by decide) (by decide)
  simp at this

/-- C1 (amended): for every row of the snapshot sent by `_insert_rows`
(`reimport.py` lines 134-143), assuming the snapshot's column ids are
pairwise distinct, the insert dict contains the cell of column `i` keyed by
that column's id with the snapshot's cell value if and only if that column's
formula is `None` (the code filters on formula presence, not on the
calculated flag). -/
theorem insert_rows_omits_formula_columns :
    (∀ (table : SnapshotTable) (row : SnapshotRow) (d : List (String × String)),
        (table.columns.map SnapshotColumn.id).Nodup →
        format_row table row = .ok d →
        table.columns.length = row.cells.length ∧
        d = includedCells table.columns row.cells ∧
        (∀ (i : Nat) (hc : i < table.columns.length) (hr : i < row.cells.length),
          ((table.columns[i].id, row.cells[i]) ∈ d ↔
            table.columns[i].formula = none))) ∧
    (∀ (table : SnapshotTable) (ds : List (List (String × String))),
        insert_rows_payload table = .ok ds →
        List.Forall₂ (fun row d => format_row table row = Except.ok d) table.rows ds) := by
  constructor
  · intro table row d hnodup h
    have hlen : table.columns.length = row.cells.length := by
      by_cases hne : table.columns.length ≠ row.cells.length
      · unfold format_row at h
        rw [if_pos hne] at h
        exact absurd h (by simp)
      · omega
    have heq := format_row_ok_eq table row hnodup hlen
    rw [heq] at h
    simp only [Except.ok.injEq] at h
    subst h
    exact ⟨hlen, rfl, fun i hc hr => includedCells_mem_iff table.columns row.cells
      hnodup i hc hr⟩
  · intro table ds h
    exact TableParse.mapExcept_ok_forall₂ h

/-- Witness for C1 (amended): the spec's reimport round-trip example — a
manual column `C1` (no formula) and a calculated column `C2` (with formula) —
sends exactly the `C1` cell. -/
theorem insert_rows_omits_formula_columns_witness :
    ([(("C1", "v1") : String × String)] =
      includedCells [⟨"C1", "Manual", false, none⟩, ⟨"C2", "Calc", true, some "f"⟩]
        ["v1", "v2"]) ∧
    (("C1", "v1") ∈ ([(("C1", "v1") : String × String)])) := by
  have h := insert_rows_omits_formula_columns.1
    ⟨"t1", "T", [⟨"C1", "Manual", false, none⟩, ⟨"C2", "Calc", true, some "f"⟩],
      [⟨["v1", "v2"]⟩, ⟨["v3", "v4"]⟩]⟩
    ⟨["v1", "v2"]⟩ [("C1", "v1")] (by decide) (by rfl)
  refine ⟨h.2.1, ?_⟩
  exact (h.2.2 0 (by decide) (by decide)).mpr (by decide)

end Reimport

namespace RateLimit

theorem countP_set {α : Type} (p : α → Bool) (l : List α) (i : Nat) (a b : α)
    (h : l[i]? = some a) :
    (l.set i b).countP p + (if p a then 1 else 0) = l.countP p + (if p b then 1 else 0) := by
  induction l generalizing i with
  | nil => simp at h
  | cons x xs ih =>
    cases i with
    | zero =>
      simp only [List.getElem?_cons_zero, Option.some.injEq] at h
      subst h
      simp only [List.set_cons_zero, List.countP_cons]
      omega
    | succ i' =>
      simp only [List.getElem?_cons_succ] at h
      simp only [List.set_cons_succ, List.countP_cons]
      have := ih i' h
      omega

theorem state_recover_of_probe {c : Config} {i : Nat} {t : Task}
    (h1 : probeCount c = if c.state = .recover then 1 else 0)
    (h : c.tasks[i]? = some t) (hp : isProbe t = true) : c.state = .recover := by
  have hpos : 0 < probeCount c :=
    List.countP_pos_iff.mpr ⟨t, List.getElem?_mem h, hp⟩
  by_contra hne
  rw [if_neg hne] at h1
  omega

theorem inv_init (interval capacity n : Nat) : Inv interval capacity (init n) := by
  have htasks : ∀ t ∈ (init n).tasks, t = (⟨.waitingPermit, 0⟩ : Task) := by
    intro t ht
    exact (List.mem_replicate.mp ht).2
  refine ⟨?_, ?_, ?_, ?_, ?_⟩
  · have h0 : probeCount (init n) = 0 := by
      apply List.countP_eq_zero.mpr
      intro t ht
      rw [htasks t ht]
      simp [isProbe]
    simp only [init] at h0 ⊢
    simp [h0]
  · simp [init]
  · intro t ht
    rw [htasks t ht]
    simp [carriedExc]
  · have h0 : activeCount (init n) = 0 := by
      apply List.countP_eq_zero.mpr
      intro t ht
      rw [htasks t ht]
      simp [isActive]
    simp only [init] at h0 ⊢
    simp [h0]
  · simp [init]

theorem inv_tick {iv cap : Nat} {c : Config} (hinv : Inv iv cap c) (d : Nat) :
    Inv iv cap { c with time := c.time + d } := by
  obtain ⟨h1, h2, h3, h4, h5⟩ := hinv
  exact ⟨h1, by simp; omega, h3, h4, h5⟩

theorem inv_acquire {iv cap mr : Nat} {c : Config} {i r : Nat}
    (h : c.tasks[i]? = some ⟨.waitingPermit, r⟩) (hcap : c.permits < cap)
    (hinv : Inv iv cap c) :
    Inv iv cap { setTask c i ⟨.loopTop, mr⟩ with permits := c.permits + 1 } := by
  obtain ⟨h1, h2, h3, h4, h5⟩ := hinv
  have hcp := countP_set isProbe c.tasks i _ ⟨.loopTop, mr⟩ h
  have hca := countP_set isActive c.tasks i _ ⟨.loopTop, mr⟩ h
  simp only [isProbe] at hcp
  simp only [isActive] at hca
  refine ⟨?_, ?_, ?_, ?_, ?_⟩
  · simp only [probeCount, setTask] at h1 ⊢
    simp at hcp
    omega
  · simpa using h2
  · intro t ht
    simp only [setTask] at ht
    rcases List.mem_or_eq_of_mem_set ht with h' | h'
    · exact h3 t h'
    · subst h'; simp [carriedExc]
  · simp only [activeCount, setTask] at h4 ⊢
    simp at hca
    omega
  · simpa using hcap

end RateLimit

namespace RateLimit

theorem inv_loop {iv cap : Nat} {c : Config} {i r : Nat}
    (h : c.tasks[i]? = some ⟨.loopTop, r⟩) (hinv : Inv iv cap c) :
    Inv iv cap (loopDispatch c i r) := by
  obtain ⟨h1, h2, h3, h4, h5⟩ := hinv
  simp only [probeCount] at h1
  simp only [activeCount] at h4
  cases hstate : c.state with
  | recover =>
    rw [hstate] at h1
    simp [-List.countP_eq_zero] at h1
    have hcp := countP_set isProbe c.tasks i _ ⟨.parkedRecover (c.time + 1), r⟩ h
    have hca := countP_set isActive c.tasks i _ ⟨.parkedRecover (c.time + 1), r⟩ h
    simp only [isProbe] at hcp
    simp only [isActive] at hca
    simp at hcp hca
    simp only [loopDispatch, hstate]
    refine ⟨?_, ?_, ?_, ?_, ?_⟩
    · simp only [probeCount, setTask, hstate]
      simp [-List.countP_eq_zero]
      omega
    · simpa using h2
    · intro t ht
      simp only [setTask] at ht
      rcases List.mem_or_eq_of_mem_set ht with h' | h'
      · exact h3 t h'
      · subst h'; simp [carriedExc]
    · simp only [activeCount, setTask]
      omega
    · simpa using h5
  | normal =>
    rw [hstate] at h1
    simp [-List.countP_eq_zero] at h1
    have hcp := countP_set isProbe c.tasks i _ ⟨.runningFunc false, r⟩ h
    have hca := countP_set isActive c.tasks i _ ⟨.runningFunc false, r⟩ h
    simp only [isProbe] at hcp
    simp only [isActive] at hca
    simp at hcp hca
    simp only [loopDispatch, hstate]
    refine ⟨?_, ?_, ?_, ?_, ?_⟩
    · simp only [probeCount, setTask, hstate]
      simp [-List.countP_eq_zero]
      omega
    · simpa using h2
    · intro t ht
      simp only [setTask] at ht
      rcases List.mem_or_eq_of_mem_set ht with h' | h'
      · exact h3 t h'
      · subst h'; simp [carriedExc]
    · simp only [activeCount, setTask]
      omega
    · simpa using h5
  | backoff =>
    rw [hstate] at h1
    simp [-List.countP_eq_zero] at h1
    simp only [loopDispatch, hstate]
    by_cases hbt : c.backoffUntil ≤ c.time
    · rw [if_pos hbt]
      have hcp := countP_set isProbe c.tasks i _ ⟨.runningFunc true, r⟩ h
      have hca := countP_set isActive c.tasks i _ ⟨.runningFunc true, r⟩ h
      simp only [isProbe] at hcp
      simp only [isActive] at hca
      simp at hcp hca
      refine ⟨?_, ?_, ?_, ?_, ?_⟩
      · simp only [probeCount, setTask]
        simp [-List.countP_eq_zero]
        omega
      · simpa using h2
      · intro t ht
        simp only [setTask] at ht
        rcases List.mem_or_eq_of_mem_set ht with h' | h'
        · exact h3 t h'
        · subst h'; simp [carriedExc]
      · simp only [activeCount, setTask]
        omega
      · simpa using h5
    · rw [if_neg hbt]
      have hcp := countP_set isProbe c.tasks i _ ⟨.waitingBackoff, r⟩ h
      have hca := countP_set isActive c.tasks i _ ⟨.waitingBackoff, r⟩ h
      simp only [isProbe] at hcp
      simp only [isActive] at hca
      simp at hcp hca
      refine ⟨?_, ?_, ?_, ?_, ?_⟩
      · simp only [probeCount, setTask, hstate]
        simp [-List.countP_eq_zero]
        omega
      · simpa using h2
      · intro t ht
        simp only [setTask] at ht
        rcases List.mem_or_eq_of_mem_set ht with h' | h'
        · exact h3 t h'
        · subst h'; simp [carriedExc]
      · simp only [activeCount, setTask]
        omega
      · simpa using h5

theorem inv_wakePark {iv cap : Nat} {c : Config} {i w r : Nat}
    (h : c.tasks[i]? = some ⟨.parkedRecover w, r⟩) (hinv : Inv iv cap c) :
    Inv iv cap (setTask c i ⟨.loopTop, r⟩) := by
  obtain ⟨h1, h2, h3, h4, h5⟩ := hinv
  simp only [probeCount] at h1
  simp only [activeCount] at h4
  have hcp := countP_set isProbe c.tasks i _ ⟨.loopTop, r⟩ h
  have hca := countP_set isActive c.tasks i _ ⟨.loopTop, r⟩ h
  simp only [isProbe] at hcp
  simp only [isActive] at hca
  simp at hcp hca
  refine ⟨?_, ?_, ?_, ?_, ?_⟩
  · simp only [probeCount, setTask]
    omega
  · simpa using h2
  · intro t ht
    simp only [setTask] at ht
    rcases List.mem_or_eq_of_mem_set ht with h' | h'
    · exact h3 t h'
    · subst h'; simp [carriedExc]
  · simp only [activeCount, setTask]
    omega
  · simpa using h5

theorem inv_backoffExit {iv cap : Nat} {c : Config} {i r : Nat}
    (h : c.tasks[i]? = some ⟨.waitingBackoff, r⟩) (hinv : Inv iv cap c) :
    Inv iv cap (electDispatch c i r) := by
  obtain ⟨h1, h2, h3, h4, h5⟩ := hinv
  simp only [probeCount] at h1
  simp only [activeCount] at h4
  cases hstate : c.state with
  | recover =>
    rw [hstate] at h1
    simp [-List.countP_eq_zero] at h1
    have hcp := countP_set isProbe c.tasks i _ ⟨.loopTop, r⟩ h
    have hca := countP_set isActive c.tasks i _ ⟨.loopTop, r⟩ h
    simp only [isProbe] at hcp
    simp only [isActive] at hca
    simp at hcp hca
    simp only [electDispatch, hstate]
    refine ⟨?_, ?_, ?_, ?_, ?_⟩
    · simp only [probeCount, setTask, hstate]
      simp [-List.countP_eq_zero]
      omega
    · simpa using h2
    · intro t ht
      simp only [setTask] at ht
      rcases List.mem_or_eq_of_mem_set ht with h' | h'
      · exact h3 t h'
      · subst h'; simp [carriedExc]
    · simp only [activeCount, setTask]
      omega
    · simpa using h5
  | normal =>
    rw [hstate] at h1
    simp [-List.countP_eq_zero] at h1
    have hcp := countP_set isProbe c.tasks i _ ⟨.loopTop, r⟩ h
    have hca := countP_set isActive c.tasks i _ ⟨.loopTop, r⟩ h
    simp only [isProbe] at hcp
    simp only [isActive] at hca
    simp at hcp hca
    simp only [electDispatch, hstate]
    refine ⟨?_, ?_, ?_, ?_, ?_⟩
    · simp only [probeCount, setTask, hstate]
      simp [-List.countP_eq_zero]
      omega
    · simpa using h2
    · intro t ht
      simp only [setTask] at ht
      rcases List.mem_or_eq_of_mem_set ht with h' | h'
      · exact h3 t h'
      · subst h'; simp [carriedExc]
    · simp only [activeCount, setTask]
      omega
    · simpa using h5
  | backoff =>
    rw [hstate] at h1
    simp [-List.countP_eq_zero] at h1
    have hcp := countP_set isProbe c.tasks i _ ⟨.runningFunc true, r⟩ h
    have hca := countP_set isActive c.tasks i _ ⟨.runningFunc true, r⟩ h
    simp only [isProbe] at hcp
    simp only [isActive] at hca
    simp at hcp hca
    simp only [electDispatch, hstate]
    refine ⟨?_, ?_, ?_, ?_, ?_⟩
    · simp only [probeCount, setTask]
      simp [-List.countP_eq_zero]
      omega
    · simpa using h2
    · intro t ht
      simp only [setTask] at ht
      rcases List.mem_or_eq_of_mem_set ht with h' | h'
      · exact h3 t h'
      · subst h'; simp [carriedExc]
    · simp only [activeCount, setTask]
      omega
    · simpa using h5

end RateLimit

namespace RateLimit

theorem inv_funcOk {iv cap : Nat} {c : Config} {i : Nat} {b : Bool} {v r : Nat}
    (h : c.tasks[i]? = some ⟨.runningFunc b, r⟩) (hinv : Inv iv cap c) :
    Inv iv cap (okResume c i b v r) := by
  obtain ⟨h1, h2, h3, h4, h5⟩ := hinv
  simp only [probeCount] at h1
  simp only [activeCount] at h4
  cases b with
  | true =>
    have hcp := countP_set isProbe c.tasks i _ ⟨.done v, r⟩ h
    have hca := countP_set isActive c.tasks i _ ⟨.done v, r⟩ h
    simp [isProbe, isActive] at hcp hca
    have hrec : c.state = .recover := by
      apply state_recover_of_probe _ h (by simp [isProbe])
      simpa [probeCount] using h1
    rw [hrec] at h1
    simp [-List.countP_eq_zero] at h1
    have hok : okResume c i true v r =
        (⟨.normal, c.backoffUntil, c.time, c.permits - 1,
          c.tasks.set i ⟨.done v, r⟩⟩ : Config) := rfl
    rw [hok]
    refine ⟨?_, h2, ?_, ?_, ?_⟩
    · simp [probeCount, -List.countP_eq_zero]
      omega
    · intro t ht
      rcases List.mem_or_eq_of_mem_set ht with h' | h'
      · exact h3 t h'
      · subst h'; simp [carriedExc]
    · simp [activeCount, -List.countP_eq_zero]
      omega
    · exact Nat.le_trans (Nat.sub_le _ _) h5
  | false =>
    have hcp := countP_set isProbe c.tasks i _ ⟨.done v, r⟩ h
    have hca := countP_set isActive c.tasks i _ ⟨.done v, r⟩ h
    simp [isProbe, isActive] at hcp hca
    have hok : okResume c i false v r =
        (⟨c.state, c.backoffUntil, c.time, c.permits - 1,
          c.tasks.set i ⟨.done v, r⟩⟩ : Config) := rfl
    rw [hok]
    refine ⟨?_, h2, ?_, ?_, ?_⟩
    · simp [probeCount, -List.countP_eq_zero]
      omega
    · intro t ht
      rcases List.mem_or_eq_of_mem_set ht with h' | h'
      · exact h3 t h'
      · subst h'; simp [carriedExc]
    · simp [activeCount, -List.countP_eq_zero]
      omega
    · exact Nat.le_trans (Nat.sub_le _ _) h5

theorem inv_funcRate {iv cap : Nat} {c : Config} {i : Nat} {b : Bool} {r : Nat}
    (h : c.tasks[i]? = some ⟨.runningFunc b, r⟩) (hinv : Inv iv cap c) :
    Inv iv cap (rateResume iv c i b r) := by
  obtain ⟨h1, h2, h3, h4, h5⟩ := hinv
  simp only [probeCount] at h1
  simp only [activeCount] at h4
  cases b with
  | true =>
    have hcp := countP_set isProbe c.tasks i _ ⟨.loopTop, r⟩ h
    have hca := countP_set isActive c.tasks i _ ⟨.loopTop, r⟩ h
    simp [isProbe, isActive] at hcp hca
    have hrec : c.state = .recover := by
      apply state_recover_of_probe _ h (by simp [isProbe])
      simpa [probeCount] using h1
    rw [hrec] at h1
    simp [-List.countP_eq_zero] at h1
    have hok : rateResume iv c i true r =
        (⟨.backoff, c.time + iv, c.time, c.permits,
          c.tasks.set i ⟨.loopTop, r⟩⟩ : Config) := rfl
    rw [hok]
    refine ⟨?_, Nat.le_refl _, ?_, ?_, h5⟩
    · simp [probeCount, -List.countP_eq_zero]
      omega
    · intro t ht
      rcases List.mem_or_eq_of_mem_set ht with h' | h'
      · exact h3 t h'
      · subst h'; simp [carriedExc]
    · simp [activeCount, -List.countP_eq_zero]
      omega
  | false =>
    have hcp := countP_set isProbe c.tasks i _ ⟨.loopTop, r⟩ h
    have hca := countP_set isActive c.tasks i _ ⟨.loopTop, r⟩ h
    simp [isProbe, isActive] at hcp hca
    cases hstate : c.state with
    | normal =>
      rw [hstate] at h1
      simp [-List.countP_eq_zero] at h1
      have hok : rateResume iv c i false r =
          (⟨.backoff, c.time + iv, c.time, c.permits,
            c.tasks.set i ⟨.loopTop, r⟩⟩ : Config) := by
        simp [rateResume, hstate, setTask]
      rw [hok]
      refine ⟨?_, Nat.le_refl _, ?_, ?_, h5⟩
      · simp [probeCount, -List.countP_eq_zero]
        omega
      · intro t ht
        rcases List.mem_or_eq_of_mem_set ht with h' | h'
        · exact h3 t h'
        · subst h'; simp [carriedExc]
      · simp [activeCount, -List.countP_eq_zero]
        omega
    | recover =>
      rw [hstate] at h1
      simp [-List.countP_eq_zero] at h1
      have hok : rateResume iv c i false r =
          (⟨c.state, c.backoffUntil, c.time, c.permits,
            c.tasks.set i ⟨.loopTop, r⟩⟩ : Config) := by
        simp [rateResume, hstate, setTask]
      rw [hok]
      refine ⟨?_, h2, ?_, ?_, h5⟩
      · rw [hstate]
        simp [probeCount, -List.countP_eq_zero]
        omega
      · intro t ht
        rcases List.mem_or_eq_of_mem_set ht with h' | h'
        · exact h3 t h'
        · subst h'; simp [carriedExc]
      · simp [activeCount, -List.countP_eq_zero]
        omega
    | backoff =>
      rw [hstate] at h1
      simp [-List.countP_eq_zero] at h1
      have hok : rateResume iv c i false r =
          (⟨c.state, c.time + iv, c.time, c.permits,
            c.tasks.set i ⟨.loopTop, r⟩⟩ : Config) := by
        simp [rateResume, hstate, setTask]
      rw [hok]
      refine ⟨?_, Nat.le_refl _, ?_, ?_, h5⟩
      · rw [hstate]
        simp [probeCount, -List.countP_eq_zero]
        omega
      · intro t ht
        rcases List.mem_or_eq_of_mem_set ht with h' | h'
        · exact h3 t h'
        · subst h'; simp [carriedExc]
      · simp [activeCount, -List.countP_eq_zero]
        omega

theorem inv_funcOther {iv cap : Nat} {c : Config} {i : Nat} {b : Bool} {n r : Nat}
    (h : c.tasks[i]? = some ⟨.runningFunc b, r⟩) (hinv : Inv iv cap c) :
    Inv iv cap (otherResume c i b n r) := by
  obtain ⟨h1, h2, h3, h4, h5⟩ := hinv
  simp only [probeCount] at h1
  simp only [activeCount] at h4
  cases b with
  | true =>
    have hcp := countP_set isProbe c.tasks i _ ⟨.sleepOther1 (c.time + 1) (.other n), r⟩ h
    have hca := countP_set isActive c.tasks i _ ⟨.sleepOther1 (c.time + 1) (.other n), r⟩ h
    simp [isProbe, isActive] at hcp hca
    have hok : otherResume c i true n r =
        (⟨c.state, c.backoffUntil, c.time, c.permits,
          c.tasks.set i ⟨.sleepOther1 (c.time + 1) (.other n), r⟩⟩ : Config) := rfl
    rw [hok]
    refine ⟨?_, h2, ?_, ?_, h5⟩
    · simp [probeCount, -List.countP_eq_zero]
      omega
    · intro t ht
      rcases List.mem_or_eq_of_mem_set ht with h' | h'
      · exact h3 t h'
      · subst h'; simp [carriedExc]
    · simp [activeCount, -List.countP_eq_zero]
      omega
  | false =>
    cases r with
    | zero =>
      have hcp := countP_set isProbe c.tasks i _ ⟨.raised (.other n), 0⟩ h
      have hca := countP_set isActive c.tasks i _ ⟨.raised (.other n), 0⟩ h
      simp [isProbe, isActive] at hcp hca
      have hok : otherResume c i false n 0 =
          (⟨c.state, c.backoffUntil, c.time, c.permits - 1,
            c.tasks.set i ⟨.raised (.other n), 0⟩⟩ : Config) := rfl
      rw [hok]
      refine ⟨?_, h2, ?_, ?_, ?_⟩
      · simp [probeCount, -List.countP_eq_zero]
        omega
      · intro t ht
        rcases List.mem_or_eq_of_mem_set ht with h' | h'
        · exact h3 t h'
        · subst h'; simp [carriedExc]
      · simp [activeCount, -List.countP_eq_zero]
        omega
      · exact Nat.le_trans (Nat.sub_le _ _) h5
    | succ r' =>
      have hcp := countP_set isProbe c.tasks i _
        ⟨.retrySleep (c.time + 1) (.other n), r'⟩ h
      have hca := countP_set isActive c.tasks i _
        ⟨.retrySleep (c.time + 1) (.other n), r'⟩ h
      simp [isProbe, isActive] at hcp hca
      have hok : otherResume c i false n (r' + 1) =
          (⟨c.state, c.backoffUntil, c.time, c.permits,
            c.tasks.set i ⟨.retrySleep (c.time + 1) (.other n), r'⟩⟩ : Config) := rfl
      rw [hok]
      refine ⟨?_, h2, ?_, ?_, h5⟩
      · simp [probeCount, -List.countP_eq_zero]
        omega
      · intro t ht
        rcases List.mem_or_eq_of_mem_set ht with h' | h'
        · exact h3 t h'
        · subst h'; simp [carriedExc]
      · simp [activeCount, -List.countP_eq_zero]
        omega

theorem inv_wakeOther1 {iv cap : Nat} {c : Config} {i w : Nat} {e : Exc} {r : Nat}
    (h : c.tasks[i]? = some ⟨.sleepOther1 w e, r⟩) (hinv : Inv iv cap c) :
    Inv iv cap
      { setTask c i ⟨.sleepOther10 (c.time + 10) e, r⟩ with state := .backoff } := by
  obtain ⟨h1, h2, h3, h4, h5⟩ := hinv
  have hrec : c.state = .recover := state_recover_of_probe h1 h (by simp [isProbe])
  have hold := h3 _ (List.getElem?_mem h)
  simp only [probeCount] at h1
  rw [hrec] at h1
  simp [-List.countP_eq_zero] at h1
  simp only [activeCount] at h4
  have hcp := countP_set isProbe c.tasks i _ ⟨.sleepOther10 (c.time + 10) e, r⟩ h
  have hca := countP_set isActive c.tasks i _ ⟨.sleepOther10 (c.time + 10) e, r⟩ h
  simp [isProbe, isActive] at hcp hca
  have hok : ({ setTask c i ⟨.sleepOther10 (c.time + 10) e, r⟩ with
      state := .backoff } : Config) =
      (⟨.backoff, c.backoffUntil, c.time, c.permits,
        c.tasks.set i ⟨.sleepOther10 (c.time + 10) e, r⟩⟩ : Config) := rfl
  rw [hok]
  refine ⟨?_, h2, ?_, ?_, h5⟩
  · simp [probeCount, -List.countP_eq_zero]
    omega
  · intro t ht
    rcases List.mem_or_eq_of_mem_set ht with h' | h'
    · exact h3 t h'
    · subst h'
      simpa [carriedExc] using hold
  · simp [activeCount, -List.countP_eq_zero]
    omega

theorem inv_wakeOther10 {iv cap : Nat} {c : Config} {i w : Nat} {e : Exc} {r : Nat}
    (h : c.tasks[i]? = some ⟨.sleepOther10 w e, r⟩) (hinv : Inv iv cap c) :
    Inv iv cap (retryCatch c i r e) := by
  obtain ⟨h1, h2, h3, h4, h5⟩ := hinv
  have hold := h3 _ (List.getElem?_mem h)
  simp only [probeCount] at h1
  simp only [activeCount] at h4
  cases r with
  | zero =>
    have hcp := countP_set isProbe c.tasks i _ ⟨.raised e, 0⟩ h
    have hca := countP_set isActive c.tasks i _ ⟨.raised e, 0⟩ h
    simp [isProbe, isActive] at hcp hca
    have hok : retryCatch c i 0 e =
        (⟨c.state, c.backoffUntil, c.time, c.permits - 1,
          c.tasks.set i ⟨.raised e, 0⟩⟩ : Config) := rfl
    rw [hok]
    refine ⟨?_, h2, ?_, ?_, ?_⟩
    · simp [probeCount, -List.countP_eq_zero]
      omega
    · intro t ht
      rcases List.mem_or_eq_of_mem_set ht with h' | h'
      · exact h3 t h'
      · subst h'
        simpa [carriedExc] using hold
    · simp [activeCount, -List.countP_eq_zero]
      omega
    · exact Nat.le_trans (Nat.sub_le _ _) h5
  | succ r' =>
    have hcp := countP_set isProbe c.tasks i _ ⟨.retrySleep (c.time + 1) e, r'⟩ h
    have hca := countP_set isActive c.tasks i _ ⟨.retrySleep (c.time + 1) e, r'⟩ h
    simp [isProbe, isActive] at hcp hca
    have hok : retryCatch c i (r' + 1) e =
        (⟨c.state, c.backoffUntil, c.time, c.permits,
          c.tasks.set i ⟨.retrySleep (c.time + 1) e, r'⟩⟩ : Config) := rfl
    rw [hok]
    refine ⟨?_, h2, ?_, ?_, h5⟩
    · simp [probeCount, -List.countP_eq_zero]
      omega
    · intro t ht
      rcases List.mem_or_eq_of_mem_set ht with h' | h'
      · exact h3 t h'
      · subst h'
        simpa [carriedExc] using hold
    · simp [activeCount, -List.countP_eq_zero]
      omega

theorem inv_wakeRetry {iv cap : Nat} {c : Config} {i w : Nat} {e : Exc} {r : Nat}
    (h : c.tasks[i]? = some ⟨.retrySleep w e, r⟩) (hinv : Inv iv cap c) :
    Inv iv cap (setTask c i ⟨.loopTop, r⟩) := by
  obtain ⟨h1, h2, h3, h4, h5⟩ := hinv
  simp only [probeCount] at h1
  simp only [activeCount] at h4
  have hcp := countP_set isProbe c.tasks i _ ⟨.loopTop, r⟩ h
  have hca := countP_set isActive c.tasks i _ ⟨.loopTop, r⟩ h
  simp [isProbe, isActive] at hcp hca
  refine ⟨?_, h2, ?_, ?_, h5⟩
  · simp only [probeCount, setTask]
    omega
  · intro t ht
    simp only [setTask] at ht
    rcases List.mem_or_eq_of_mem_set ht with h' | h'
    · exact h3 t h'
    · subst h'; simp [carriedExc]
  · simp only [activeCount, setTask]
    omega

/-- The invariant is preserved by every scheduling step. -/
theorem inv_step {iv cap mr : Nat} {c c' : Config} (hinv : Inv iv cap c)
    (hstep : Step iv cap mr c c') : Inv iv cap c' := by
  cases hstep with
  | tick d => exact inv_tick hinv d
  | acquire i r h hcap => exact inv_acquire h hcap hinv
  | loop i r h => exact inv_loop h hinv
  | wakePark i w r h hw => exact inv_wakePark h hinv
  | backoffExit i r h hw => exact inv_backoffExit h hinv
  | funcOk i b v r h => exact inv_funcOk h hinv
  | funcRate i b r h => exact inv_funcRate h hinv
  | funcOther i b n r h => exact inv_funcOther h hinv
  | wakeOther1 i w e r h hw => exact inv_wakeOther1 h hinv
  | wakeOther10 i w e r h hw => exact inv_wakeOther10 h hinv
  | wakeRetry i w e r h hw => exact inv_wakeRetry h hinv

/-- The invariant holds in every reachable configuration. -/
theorem inv_of_reachable {iv cap mr n : Nat} {c : Config}
    (h : Reachable iv cap mr n c) : Inv iv cap c := by
  induction h with
  | refl => exact inv_init iv cap n
  | tail _ hstep ih => exact inv_step ih hstep

end RateLimit

namespace RateLimit

theorem set_task_update {c : Config} {j : Nat} {told tnew : Task}
    (hj : c.tasks[j]? = some told) :
    ∀ (i : Nat) (t t' : Task), c.tasks[i]? = some t →
      (c.tasks.set j tnew)[i]? = some t' →
      t' = t ∨ (t = told ∧ t' = tnew) := by
  intro i t t' ht ht'
  by_cases hij : i = j
  · subst hij
    rw [ht] at hj
    have hlt : i < c.tasks.length := (List.getElem?_eq_some.mp ht).1
    rw [List.getElem?_set_self hlt] at ht'
    simp only [Option.some.injEq] at hj ht'
    exact Or.inr ⟨hj, ht'.symm⟩
  · rw [List.getElem?_set_ne (Ne.symm hij)] at ht'
    rw [ht] at ht'
    simp only [Option.some.injEq] at ht'
    exact Or.inl ht'.symm

theorem finish_update {t t' told tnew : Task}
    (hd : t' = t ∨ (t = told ∧ t' = tnew))
    (hnew : tnew.pc ≠ .waitingPermit)
    (hold1 : ∀ v, told.pc ≠ .done v) (hold2 : ∀ e, told.pc ≠ .raised e) :
    t' = t ∨ (t'.pc ≠ .waitingPermit ∧ (∀ v, t.pc ≠ .done v) ∧ (∀ e, t.pc ≠ .raised e)) := by
  rcases hd with hd | ⟨hd1, hd2⟩
  · exact Or.inl hd
  · subst hd1; subst hd2
    exact Or.inr ⟨hnew, hold1, hold2⟩

/-- One scheduling step changes at most the scheduled task, never moves a
task back to `waitingPermit` (a permit is acquired once), and never changes a
terminated task. -/
theorem step_task_update {iv cap mr : Nat} {c c' : Config}
    (hstep : Step iv cap mr c c') :
    ∀ (i : Nat) (t t' : Task), c.tasks[i]? = some t → c'.tasks[i]? = some t' →
      t' = t ∨ (t'.pc ≠ .waitingPermit ∧ (∀ v, t.pc ≠ .done v) ∧ (∀ e, t.pc ≠ .raised e)) := by
  cases hstep with
  | tick d =>
    intro i t t' ht ht'
    simp only at ht'
    rw [ht] at ht'
    simp only [Option.some.injEq] at ht'
    exact Or.inl ht'.symm
  | acquire j r hj hcap =>
    intro i t t' ht ht'
    simp only [setTask] at ht'
    exact finish_update (set_task_update hj i t t' ht ht') (by simp) (by simp) (by simp)
  | loop j r hj =>
    intro i t t' ht ht'
    cases hstate : c.state with
    | recover =>
      simp only [loopDispatch, hstate, setTask] at ht'
      exact finish_update (set_task_update hj i t t' ht ht') (by simp) (by simp) (by simp)
    | normal =>
      simp only [loopDispatch, hstate, setTask] at ht'
      exact finish_update (set_task_update hj i t t' ht ht') (by simp) (by simp) (by simp)
    | backoff =>
      by_cases hbt : c.backoffUntil ≤ c.time
      · simp [loopDispatch, hstate, setTask, hbt] at ht'
        exact finish_update (set_task_update hj i t t' ht ht') (by simp) (by simp) (by simp)
      · simp [loopDispatch, hstate, setTask, hbt] at ht'
        exact finish_update (set_task_update hj i t t' ht ht') (by simp) (by simp) (by simp)
  | wakePark j w r hj hw =>
    intro i t t' ht ht'
    simp only [setTask] at ht'
    exact finish_update (set_task_update hj i t t' ht ht') (by simp) (by simp) (by simp)
  | backoffExit j r hj hw =>
    intro i t t' ht ht'
    cases hstate : c.state with
    | recover =>
      simp only [electDispatch, hstate, setTask] at ht'
      exact finish_update (set_task_update hj i t t' ht ht') (by simp) (by simp) (by simp)
    | normal =>
      simp only [electDispatch, hstate, setTask] at ht'
      exact finish_update (set_task_update hj i t t' ht ht') (by simp) (by simp) (by simp)
    | backoff =>
      simp only [electDispatch, hstate, setTask] at ht'
      exact finish_update (set_task_update hj i t t' ht ht') (by simp) (by simp) (by simp)
  | funcOk j b v r hj =>
    intro i t t' ht ht'
    cases b with
    | true =>
      simp only [okResume, if_true, setTask] at ht'
      exact finish_update (set_task_update hj i t t' ht ht') (by simp) (by simp) (by simp)
    | false =>
      simp only [okResume, if_false, setTask] at ht'
      exact finish_update (set_task_update hj i t t' ht ht') (by simp) (by simp) (by simp)
  | funcRate j b r hj =>
    intro i t t' ht ht'
    cases b with
    | true =>
      simp only [rateResume, if_true, setTask] at ht'
      exact finish_update (set_task_update hj i t t' ht ht') (by simp) (by simp) (by simp)
    | false =>
      cases hstate : c.state with
      | recover =>
        simp [rateResume, hstate, setTask] at ht'
        exact finish_update (set_task_update hj i t t' ht ht') (by simp) (by simp) (by simp)
      | normal =>
        simp [rateResume, hstate, setTask] at ht'
        exact finish_update (set_task_update hj i t t' ht ht') (by simp) (by simp) (by simp)
      | backoff =>
        simp [rateResume, hstate, setTask] at ht'
        exact finish_update (set_task_update hj i t t' ht ht') (by simp) (by simp) (by simp)
  | funcOther j b n r hj =>
    intro i t t' ht ht'
    cases b with
    | true =>
      simp only [otherResume, if_true, setTask] at ht'
      exact finish_update (set_task_update hj i t t' ht ht') (by simp) (by simp) (by simp)
    | false =>
      cases r with
      | zero =>
        simp only [otherResume, retryCatch, if_false, setTask] at ht'
        exact finish_update (set_task_update hj i t t' ht ht') (by simp) (by simp) (by simp)
      | succ r' =>
        simp only [otherResume, retryCatch, if_false, setTask] at ht'
        exact finish_update (set_task_update hj i t t' ht ht') (by simp) (by simp) (by simp)
  | wakeOther1 j w e r hj hw =>
    intro i t t' ht ht'
    simp only [setTask] at ht'
    exact finish_update (set_task_update hj i t t' ht ht') (by simp) (by simp) (by simp)
  | wakeOther10 j w e r hj hw =>
    intro i t t' ht ht'
    cases r with
    | zero =>
      simp only [retryCatch, setTask] at ht'
      exact finish_update (set_task_update hj i t t' ht ht') (by simp) (by simp) (by simp)
    | succ r' =>
      simp only [retryCatch, setTask] at ht'
      exact finish_update (set_task_update hj i t t' ht ht') (by simp) (by simp) (by simp)
  | wakeRetry j w e r hj hw =>
    intro i t t' ht ht'
    simp only [setTask] at ht'
    exact finish_update (set_task_update hj i t t' ht ht') (by simp) (by simp) (by simp)

end RateLimit

namespace RateLimit

/-- C4: a call wrapped by `AdaptiveRateLimit` never propagates the designated
rate-limit exception: in every reachable configuration no task has terminated
with the rate-limit exception and no suspended task carries it (in
particular, it never reaches the `retry` wrapper); moreover whenever the
wrapped operation raises the backoff exception the wrapper absorbs it,
updates the shared state (`rateResume`), and puts the call back at the top of
the loop to re-attempt, instead of raising. -/
theorem rate_limit_exception_never_propagates :
    (∀ (iv cap mr n : Nat) (c : Config), Reachable iv cap mr n c →
        (∀ t ∈ c.tasks, ∀ e, t.pc = PC.raised e → e ≠ Exc.rateLimit) ∧
        (∀ t ∈ c.tasks, carriedExc t.pc ≠ some Exc.rateLimit)) ∧
    (∀ (iv cap mr : Nat) (c : Config) (i : Nat) (b : Bool) (r : Nat),
        c.tasks[i]? = some ⟨.runningFunc b, r⟩ →
        Step iv cap mr c (rateResume iv c i b r) ∧
        (rateResume iv c i b r).tasks[i]? = some ⟨.loopTop, r⟩) := by
  constructor
  · intro iv cap mr n c hreach
    have h3 := (inv_of_reachable hreach).2.2.1
    refine ⟨?_, h3⟩
    intro t htm e hpc
    have := h3 t htm
    rw [hpc] at this
    simpa [carriedExc] using this
  · intro iv cap mr c i b r h
    have hlt : i < c.tasks.length := (List.getElem?_eq_some.mp h).1
    refine ⟨Step.funcRate c i b r h, ?_⟩
    cases b with
    | true => simp [rateResume, setTask, List.getElem?_set_self hlt]
    | false =>
      cases hstate : c.state with
      | normal => simp [rateResume, hstate, setTask, List.getElem?_set_self hlt]
      | backoff => simp [rateResume, hstate, setTask, List.getElem?_set_self hlt]
      | recover => simp [rateResume, hstate, setTask, List.getElem?_set_self hlt]

/-- Witness for C4: no task of a fresh two-task system ever terminates with
the rate-limit exception, and a concrete rate-limited call is absorbed and
re-attempted. -/
theorem rate_limit_exception_never_propagates_witness :
    (∀ t ∈ (init 2).tasks, ∀ e, t.pc = PC.raised e → e ≠ Exc.rateLimit) ∧
    Step 10 50 5 (Config.mk .normal 0 0 1 [⟨.runningFunc false, 5⟩])
      (rateResume 10 (Config.mk .normal 0 0 1 [⟨.runningFunc false, 5⟩]) 0 false 5) ∧
    (rateResume 10 (Config.mk .normal 0 0 1 [⟨.runningFunc false, 5⟩]) 0 false 5).tasks[0]? =
      some ⟨.loopTop, 5⟩ := by
  refine ⟨(rate_limit_exception_never_propagates.1 10 50 5 2 (init 2)
      Relation.ReflTransGen.refl).1, ?_, ?_⟩
  · exact (rate_limit_exception_never_propagates.2 10 50 5
      (Config.mk .normal 0 0 1 [⟨.runningFunc false, 5⟩]) 0 false 5 rfl).1
  · exact (rate_limit_exception_never_propagates.2 10 50 5
      (Config.mk .normal 0 0 1 [⟨.runningFunc false, 5⟩]) 0 false 5 rfl).2

/-- C5: under any interleaving, at most one caller holds the probe/Recovering
role at a given instant, and no caller holds it while the shared state is not
`recover`. -/
theorem at_most_one_recovering :
    ∀ (iv cap mr n : Nat) (c : Config), Reachable iv cap mr n c →
      probeCount c ≤ 1 ∧ (c.state ≠ State.recover → probeCount c = 0) := by
  intro iv cap mr n c h
  have h1 := (inv_of_reachable h).1
  constructor
  · by_cases hs : c.state = .recover
    · rw [if_pos hs] at h1
      omega
    · rw [if_neg hs] at h1
      omega
  · intro hs
    rwa [if_neg hs] at h1

/-- Witness for C5: the fresh three-task system. -/
theorem at_most_one_recovering_witness :
    probeCount (init 3) ≤ 1 ∧
    ((init 3).state ≠ State.recover → probeCount (init 3) = 0) :=
  at_most_one_recovering 10 50 5 3 (init 3) Relation.ReflTransGen.refl

/-- C6: along every step out of a reachable configuration, `_backoff_until`
never decreases, and every assignment to it sets it to the current monotonic
time plus the fixed backoff interval. -/
theorem backoff_until_monotone :
    ∀ (iv cap mr n : Nat) (c c' : Config), Reachable iv cap mr n c →
      Step iv cap mr c c' →
      c.backoffUntil ≤ c'.backoffUntil ∧
      (c'.backoffUntil = c.backoffUntil ∨ c'.backoffUntil = c'.time + iv) := by
  intro iv cap mr n c c' hreach hstep
  have h2 := (inv_of_reachable hreach).2.1
  cases hstep with
  | tick d => exact ⟨Nat.le_refl _, Or.inl rfl⟩
  | acquire i r h hcap => exact ⟨Nat.le_refl _, Or.inl rfl⟩
  | loop i r h =>
    cases hstate : c.state with
    | recover =>
      simp only [loopDispatch, hstate]
      exact ⟨Nat.le_refl _, Or.inl rfl⟩
    | normal =>
      simp only [loopDispatch, hstate]
      exact ⟨Nat.le_refl _, Or.inl rfl⟩
    | backoff =>
      simp only [loopDispatch, hstate]
      split
      · exact ⟨Nat.le_refl _, Or.inl rfl⟩
      · exact ⟨Nat.le_refl _, Or.inl rfl⟩
  | wakePark i w r h hw => exact ⟨Nat.le_refl _, Or.inl rfl⟩
  | backoffExit i r h hw =>
    cases hstate : c.state with
    | recover =>
      simp only [electDispatch, hstate]
      exact ⟨Nat.le_refl _, Or.inl rfl⟩
    | normal =>
      simp only [electDispatch, hstate]
      exact ⟨Nat.le_refl _, Or.inl rfl⟩
    | backoff =>
      simp only [electDispatch, hstate]
      exact ⟨Nat.le_refl _, Or.inl rfl⟩
  | funcOk i b v r h =>
    cases b with
    | true => exact ⟨Nat.le_refl _, Or.inl rfl⟩
    | false => exact ⟨Nat.le_refl _, Or.inl rfl⟩
  | funcRate i b r h =>
    cases b with
    | true => exact ⟨h2, Or.inr rfl⟩
    | false =>
      cases hstate : c.state with
      | recover =>
        have hok : rateResume iv c i false r = setTask c i ⟨.loopTop, r⟩ := by
          simp [rateResume, hstate]
        rw [hok]
        exact ⟨Nat.le_refl _, Or.inl rfl⟩
      | normal =>
        have hok : rateResume iv c i false r =
            (⟨.backoff, c.time + iv, c.time, c.permits,
              c.tasks.set i ⟨.loopTop, r⟩⟩ : Config) := by
          simp [rateResume, hstate, setTask]
        rw [hok]
        exact ⟨h2, Or.inr rfl⟩
      | backoff =>
        have hok : rateResume iv c i false r =
            (⟨c.state, c.time + iv, c.time, c.permits,
              c.tasks.set i ⟨.loopTop, r⟩⟩ : Config) := by
          simp [rateResume, hstate, setTask]
        rw [hok]
        exact ⟨h2, Or.inr rfl⟩
  | funcOther i b n r h =>
    cases b with
    | true => exact ⟨Nat.le_refl _, Or.inl rfl⟩
    | false =>
      cases r with
      | zero => exact ⟨Nat.le_refl _, Or.inl rfl⟩
      | succ r' => exact ⟨Nat.le_refl _, Or.inl rfl⟩
  | wakeOther1 i w e r h hw => exact ⟨Nat.le_refl _, Or.inl rfl⟩
  | wakeOther10 i w e r h hw =>
    cases r with
    | zero => exact ⟨Nat.le_refl _, Or.inl rfl⟩
    | succ r' => exact ⟨Nat.le_refl _, Or.inl rfl⟩
  | wakeRetry i w e r h hw => exact ⟨Nat.le_refl _, Or.inl rfl⟩

/-- Witness for C6: a clock tick out of the initial configuration. -/
theorem backoff_until_monotone_witness :
    (init 1).backoffUntil ≤ ({ init 1 with time := (init 1).time + 5 } : Config).backoffUntil ∧
    (({ init 1 with time := (init 1).time + 5 } : Config).backoffUntil =
        (init 1).backoffUntil ∨
      ({ init 1 with time := (init 1).time + 5 } : Config).backoffUntil =
        ({ init 1 with time := (init 1).time + 5 } : Config).time + 10) :=
  backoff_until_monotone 10 50 5 1 (init 1) { init 1 with time := (init 1).time + 5 }
    Relation.ReflTransGen.refl (Step.tick (init 1) 5)

/-- C7: when the probe's operation fails with an unrelated exception, it
first sleeps the short one-second delay (shared state and `_backoff_until`
untouched), then flips the shared state back to backoff WITHOUT touching
`_backoff_until` and starts the longer ten-second sleep, and finally
re-raises that same exception into its caller (the `retry` wrapper). -/
theorem probe_unrelated_error_path :
    (∀ (iv cap mr : Nat) (c : Config) (i n r : Nat),
        c.tasks[i]? = some ⟨.runningFunc true, r⟩ →
        Step iv cap mr c (otherResume c i true n r) ∧
        (otherResume c i true n r).tasks[i]? =
          some ⟨.sleepOther1 (c.time + 1) (.other n), r⟩ ∧
        (otherResume c i true n r).state = c.state ∧
        (otherResume c i true n r).backoffUntil = c.backoffUntil) ∧
    (∀ (iv cap mr : Nat) (c : Config) (i w : Nat) (e : Exc) (r : Nat),
        c.tasks[i]? = some ⟨.sleepOther1 w e, r⟩ → w ≤ c.time →
        Step iv cap mr c
          { setTask c i ⟨.sleepOther10 (c.time + 10) e, r⟩ with state := .backoff } ∧
        ({ setTask c i ⟨.sleepOther10 (c.time + 10) e, r⟩ with
            state := .backoff } : Config).tasks[i]? =
          some ⟨.sleepOther10 (c.time + 10) e, r⟩ ∧
        ({ setTask c i ⟨.sleepOther10 (c.time + 10) e, r⟩ with
            state := .backoff } : Config).state = .backoff ∧
        ({ setTask c i ⟨.sleepOther10 (c.time + 10) e, r⟩ with
            state := .backoff } : Config).backoffUntil = c.backoffUntil) ∧
    (∀ (iv cap mr : Nat) (c : Config) (i w : Nat) (e : Exc) (r : Nat),
        c.tasks[i]? = some ⟨.sleepOther10 w e, r⟩ → w ≤ c.time →
        Step iv cap mr c (retryCatch c i r e) ∧
        ((retryCatch c i r e).tasks[i]? = some ⟨.raised e, 0⟩ ∨
          (retryCatch c i r e).tasks[i]? = some ⟨.retrySleep (c.time + 1) e, r - 1⟩) ∧
        (retryCatch c i r e).state = c.state ∧
        (retryCatch c i r e).backoffUntil = c.backoffUntil) := by
  refine ⟨?_, ?_, ?_⟩
  · intro iv cap mr c i n r h
    have hlt : i < c.tasks.length := (List.getElem?_eq_some.mp h).1
    refine ⟨Step.funcOther c i true n r h, ?_, rfl, rfl⟩
    simp [otherResume, setTask, List.getElem?_set_self hlt]
  · intro iv cap mr c i w e r h hw
    have hlt : i < c.tasks.length := (List.getElem?_eq_some.mp h).1
    refine ⟨Step.wakeOther1 c i w e r h hw, ?_, rfl, rfl⟩
    simp [setTask, List.getElem?_set_self hlt]
  · intro iv cap mr c i w e r h hw
    have hlt : i < c.tasks.length := (List.getElem?_eq_some.mp h).1
    refine ⟨Step.wakeOther10 c i w e r h hw, ?_, ?_, ?_⟩
    · cases r with
      | zero =>
        left
        simp [retryCatch, setTask, List.getElem?_set_self hlt]
      | succ r' =>
        right
        simp [retryCatch, setTask, List.getElem?_set_self hlt]
    · cases r with
      | zero => rfl
      | succ r' => rfl
    · cases r with
      | zero => rfl
      | succ r' => rfl

/-- Witness for C7: the full unrelated-error probe path at concrete
configurations. -/
theorem probe_unrelated_error_path_witness :
    ((otherResume (Config.mk .recover 0 0 1 [⟨.runningFunc true, 5⟩]) 0 true 7 5).tasks[0]? =
        some ⟨.sleepOther1 1 (.other 7), 5⟩) ∧
    (({ setTask (Config.mk .recover 20 3 1 [⟨.sleepOther1 1 (.other 7), 5⟩]) 0
          ⟨.sleepOther10 13 (.other 7), 5⟩ with state := .backoff } : Config).state =
        .backoff ∧
      ({ setTask (Config.mk .recover 20 3 1 [⟨.sleepOther1 1 (.other 7), 5⟩]) 0
          ⟨.sleepOther10 13 (.other 7), 5⟩ with state := .backoff } : Config).backoffUntil =
        20) ∧
    ((retryCatch (Config.mk .backoff 20 14 1 [⟨.sleepOther10 13 (.other 7), 5⟩]) 0 5
        (.other 7)).tasks[0]? = some ⟨.raised (.other 7), 0⟩ ∨
      (retryCatch (Config.mk .backoff 20 14 1 [⟨.sleepOther10 13 (.other 7), 5⟩]) 0 5
        (.other 7)).tasks[0]? = some ⟨.retrySleep 15 (.other 7), 5 - 1⟩) := by
  refine ⟨?_, ⟨?_, ?_⟩, ?_⟩
  · exact (probe_unrelated_error_path.1 10 50 5
      (Config.mk .recover 0 0 1 [⟨.runningFunc true, 5⟩]) 0 7 5 rfl).2.1
  · exact (probe_unrelated_error_path.2.1 10 50 5
      (Config.mk .recover 20 3 1 [⟨.sleepOther1 1 (.other 7), 5⟩]) 0 1 (.other 7) 5
      rfl (by decide)).2.2.1
  · exact (probe_unrelated_error_path.2.1 10 50 5
      (Config.mk .recover 20 3 1 [⟨.sleepOther1 1 (.other 7), 5⟩]) 0 1 (.other 7) 5
      rfl (by decide)).2.2.2
  · exact (probe_unrelated_error_path.2.2 10 50 5
      (Config.mk .backoff 20 14 1 [⟨.sleepOther10 13 (.other 7), 5⟩]) 0 13 (.other 7) 5
      rfl (by decide)).2.1

/-- C8: the concurrency permit count always equals the number of admitted
unfinished composed calls and never exceeds the gate capacity; a task never
returns to `waitingPermit` once admitted (the permit is acquired exactly once)
and a terminated task (which has released its permit) never changes again; and
every waiting position of the composed call — the backoff wait, the recover
parking, the retry delay and the probe sleeps — counts as holding a permit. -/
theorem concurrency_gate_bound :
    (∀ (iv cap mr n : Nat) (c : Config), Reachable iv cap mr n c →
        c.permits = activeCount c ∧ c.permits ≤ cap) ∧
    (∀ (iv cap mr : Nat) (c c' : Config), Step iv cap mr c c' →
        ∀ (i : Nat) (t t' : Task), c.tasks[i]? = some t → c'.tasks[i]? = some t' →
          (t'.pc = PC.waitingPermit → t.pc = PC.waitingPermit) ∧
          (∀ v, t.pc = PC.done v → t' = t) ∧
          (∀ e, t.pc = PC.raised e → t' = t)) ∧
    (∀ (w r : Nat) (e : Exc),
        isActive ⟨.waitingBackoff, r⟩ = true ∧
        isActive ⟨.parkedRecover w, r⟩ = true ∧
        isActive ⟨.retrySleep w e, r⟩ = true ∧
        isActive ⟨.sleepOther1 w e, r⟩ = true ∧
        isActive ⟨.sleepOther10 w e, r⟩ = true ∧
        isActive ⟨.runningFunc true, r⟩ = true ∧
        isActive ⟨.loopTop, r⟩ = true) := by
  refine ⟨?_, ?_, ?_⟩
  · intro iv cap mr n c h
    exact ⟨(inv_of_reachable h).2.2.2.1, (inv_of_reachable h).2.2.2.2⟩
  · intro iv cap mr c c' hstep i t t' ht ht'
    rcases step_task_update hstep i t t' ht ht' with he | ⟨hw, hd, hr⟩
    · subst he
      exact ⟨fun hh => hh, fun v _ => rfl, fun e _ => rfl⟩
    · exact ⟨fun hh => absurd hh hw, fun v hv => absurd hv (hd v),
        fun e he2 => absurd he2 (hr e)⟩
  · intro w r e
    exact ⟨rfl, rfl, rfl, rfl, rfl, rfl, rfl⟩

/-- Witness for C8: the fresh four-task system against capacity 50, and a
concrete waiting position holding its permit. -/
theorem concurrency_gate_bound_witness :
    ((init 4).permits = activeCount (init 4) ∧ (init 4).permits ≤ 50) ∧
    isActive ⟨.waitingBackoff, 0⟩ = true := by
  refine ⟨concurrency_gate_bound.1 10 50 5 4 (init 4) Relation.ReflTransGen.refl, ?_⟩
  exact (concurrency_gate_bound.2.2 0 0 (.other 0)).1

end RateLimit
